import Mathlib

/-!
Verification of the WebGLDemo terrain LOD engine.

This file gives a shallow embedding of the CPU-side tiling / LOD pyramid code
(Region.ts, Utilities.ts, PerlinTerrain, Tile, LandScape) and proves properties
of it.  JavaScript numbers are modelled by exact arithmetic: loop counters and
array indices by naturals / integers, sample values and fractional coordinates
by rationals.  Float32Array buffers are modelled as total functions from flat
indices to rationals (unwritten entries are 0, matching a fresh Float32Array).
Fallible code (RangeError throws) is modelled with Except.
-/

namespace WebGLDemo

/-- A flat sample buffer (a Float32Array in the source), as a total function
from flat indices to sample values.  Entries never written hold 0, matching a
freshly allocated Float32Array. -/
abbrev Buf := ℕ → ℚ

/-- A single store `buf[i] = v`. -/
def Buf.write (b : Buf) (i : ℕ) (v : ℚ) : Buf := fun j => if j = i then v else b j

/-- A list of samples viewed as a buffer (out-of-range reads give 0). -/
def Buf.ofList (l : List ℚ) : Buf := fun i => l.getD i 0

theorem Buf.write_same (b : Buf) (i : ℕ) (v : ℚ) : Buf.write b i v i = v := by
  simp [Buf.write]

theorem Buf.write_other (b : Buf) (i j : ℕ) (v : ℚ) (h : j ≠ i) :
    Buf.write b i v j = b j := by
  simp [Buf.write, h]

/-- Region.ts: integer-truncated rectangle of sample-grid indices.
The constructor applies Math.floor to every component; we keep the floored
integers as the fields. -/
structure Region where
  x : ℤ
  y : ℤ
  x_span : ℤ
  y_span : ℤ
deriving DecidableEq, Repr

/-- The Region constructor: floors each (possibly fractional) input. -/
def Region.make (x y x_span y_span : ℚ) : Region :=
  ⟨⌊x⌋, ⌊y⌋, ⌊x_span⌋, ⌊y_span⌋⟩

/-- Region.is_equal: component-wise equality. -/
def Region.is_equal (a b : Region) : Bool :=
  a.x == b.x && a.y == b.y && a.x_span == b.x_span && a.y_span == b.y_span

/-- Region.subdivide_region: splits the region into y_splits rows times
x_splits columns of child regions, ranked [y][x].  The source accumulates
u += u_step (and v += v_step) per loop iteration starting from this.x
(resp. this.y); over exact rationals the accumulated value at column x is
x + xIdx * u_step, which is the form used here. -/
def Region.subdivide_region (r : Region) (x_splits y_splits : ℕ) :
    List (List Region) :=
  let u_step : ℚ := (r.x_span : ℚ) / (x_splits : ℚ)
  let v_step : ℚ := (r.y_span : ℚ) / (y_splits : ℚ)
  (List.range y_splits).map (fun (yIdx : ℕ) =>
    (List.range x_splits).map (fun (xIdx : ℕ) =>
      Region.make ((r.x : ℚ) + (xIdx : ℚ) * u_step)
                  ((r.y : ℚ) + (yIdx : ℚ) * v_step)
                  u_step v_step))

/-- PerlinTerrain: a width by height height field with a flat row-major
sample buffer.  width and height are powers of two in every construction
(the constructor rounds up); the fields here hold those final sizes. -/
structure PerlinTerrain where
  width : ℕ
  height : ℕ
  map : Buf

/-- Derived bitmask size-1 used for wraparound sampling. -/
def PerlinTerrain.width_mask (t : PerlinTerrain) : ℕ := t.width - 1

/-- Derived bitmask size-1 used for wraparound sampling. -/
def PerlinTerrain.height_mask (t : PerlinTerrain) : ℕ := t.height - 1

/-- PerlinTerrain.sum_block: sums the rectangular data at these coordinates.
Mirrors the source: first the x bounds check, then the y bounds check, then a
double loop accumulating map[u + y*width].  The loop over y runs from the
argument y while y < y + height, i.e. height.toNat iterations at y + j; the
inner loop runs width.toNat iterations at u = x + i. -/
def PerlinTerrain.sum_block (t : PerlinTerrain) (x y width height : ℤ) :
    Except String ℚ :=
  if x < 0 ∨ x + width > (t.width : ℤ) then
    .error "PerlinTerrain.sum_block: x coords out of range"
  else if y < 0 ∨ y + height > (t.height : ℤ) then
    .error "PerlinTerrain.sum_block: y coords out of range"
  else
    .ok ((List.range height.toNat).foldl (fun (acc : ℚ) (j : ℕ) =>
      (List.range width.toNat).foldl (fun (acc2 : ℚ) (i : ℕ) =>
        acc2 + t.map ((x + (i : ℤ)) + (y + (j : ℤ)) * t.width).toNat) acc) 0)

/-- PerlinTerrain.return_region_data: copies the region of the field into a
fresh contiguous row-major buffer (index = (y - r_y)*r_width + (x - r_x)). -/
def PerlinTerrain.return_region_data (t : PerlinTerrain) (region : Region) :
    Except String Buf :=
  if region.x < 0 ∨ region.x + region.x_span > (t.width : ℤ) then
    .error "PerlinTerrain.return_region_data: x coords out of range"
  else if region.y < 0 ∨ region.y + region.y_span > (t.height : ℤ) then
    .error "PerlinTerrain.return_region_data: y coords out of range"
  else
    .ok (Buf.ofList ((List.range (region.y_span.toNat * region.x_span.toNat)).map
      (fun idx =>
        t.map ((region.x + (idx % region.x_span.toNat)) +
               (region.y + (idx / region.x_span.toNat)) * t.width).toNat)))

/-- Tile: a terrain tile at a particular LOD over a region of the source
height field.  our_data is the tile's flat row-major sample buffer; its
resolution is width by height, which may be smaller than the region's span
when downsampled by 2^lod_factor. -/
structure Tile where
  terrain : PerlinTerrain
  region : Region
  width : ℕ
  height : ℕ
  our_data : Buf
  lod_factor : ℤ

/-- Tile._sample_region_from_perlin: builds a downsampled tile directly from
the source height field.  Mirrors the source: lod range check, then a double
loop writing our_data[index++] in row-major order, each sample the sum of the
power by power block at (u, v) = (region.x + x*power, region.y + y*power)
times 1/power^2.  The first out-of-range block aborts (sum_block throws).
Math.floor(span / power) is Int.fdiv; a negative result makes the loop run
zero times, matching toNat = 0. -/
def Tile.sample_region_from_perlin (region : Region) (terrain : PerlinTerrain)
    (lod_factor : ℤ) : Except String Tile :=
  if lod_factor < 0 ∨ lod_factor > 10 then
    .error "Tile.sample_region_from_perlin: lod out of range"
  else
    let power : ℕ := 2 ^ lod_factor.toNat
    let inverse_power_squared : ℚ := 1 / ((power : ℚ) * (power : ℚ))
    let width : ℕ := (Int.fdiv region.x_span (power : ℤ)).toNat
    let height : ℕ := (Int.fdiv region.y_span (power : ℤ)).toNat
    match (List.range (height * width)).mapM (fun idx =>
        terrain.sum_block (region.x + ((idx % width : ℕ) : ℤ) * (power : ℤ))
                          (region.y + ((idx / width : ℕ) : ℤ) * (power : ℤ))
                          (power : ℤ) (power : ℤ)) with
    | .error e => .error e
    | .ok sums =>
        .ok ⟨terrain, region, width, height,
             fun i => (sums.getD i 0) * inverse_power_squared, lod_factor⟩

/-- Tile.create_downsampled_tile: public wrapper; samples the original tile's
region from the source terrain at the given lod factor. -/
def Tile.create_downsampled_tile (original_tile : Tile) (lod_factor : ℤ) :
    Except String Tile :=
  Tile.sample_region_from_perlin original_tile.region original_tile.terrain lod_factor

/-- Tile.create_master_tile: the whole terrain as a lod-0 tile; its buffer
aliases the terrain's own map (no copy). -/
def Tile.create_master_tile (terrain : PerlinTerrain) : Tile :=
  ⟨terrain, ⟨0, 0, (terrain.width : ℤ), (terrain.height : ℤ)⟩,
   terrain.width, terrain.height, terrain.map, 0⟩

/-- Tile.create_tile_from_region: copies the region's samples 1:1 into a new
lod-0 tile. -/
def Tile.create_tile_from_region (terrain : PerlinTerrain) (region : Region) :
    Except String Tile :=
  match terrain.return_region_data region with
  | .error e => .error e
  | .ok data =>
      .ok ⟨terrain, region, region.x_span.toNat, region.y_span.toNat, data, 0⟩

/-- Tile._sample_from_lower_lod_level_tile: the conformal resample.  Builds a
tile at the (finer) target lod over the same region whose samples bilinearly
interpolate the coarser tile's buffer.  u and v accumulate du = lower.width /
width and dv = lower.height / height per loop step from 0, so at cell (x, y)
they equal x*du and y*dv exactly; the +1 neighbours are clamped to the
coarser tile's last column/row.  The write index advances in row-major order;
indices at or beyond the sample count are never written (0, as in a fresh
Float32Array). -/
def Tile.sample_from_lower_lod_level_tile (lower_lod_tile : Tile)
    (lod_factor : ℤ) : Except String Tile :=
  if lower_lod_tile.lod_factor ≤ lod_factor then
    .error "Tile.sample_from_lower_lod_level_tile: target tile has a lower or equal lod factor"
  else if lod_factor < 0 ∨ lod_factor > 10 then
    .error "Tile.sample_from_lower_lod_level_tile: lod out of range"
  else
    let region := lower_lod_tile.region
    let power : ℕ := 2 ^ lod_factor.toNat
    let width : ℕ := (Int.fdiv region.x_span (power : ℤ)).toNat
    let height : ℕ := (Int.fdiv region.y_span (power : ℤ)).toNat
    let du : ℚ := (lower_lod_tile.width : ℚ) / (width : ℚ)
    let dv : ℚ := (lower_lod_tile.height : ℚ) / (height : ℚ)
    .ok ⟨lower_lod_tile.terrain, region, width, height,
      (fun i =>
        if i < height * width then
          let x : ℕ := i % width
          let y : ℕ := i / width
          let u : ℚ := (x : ℚ) * du
          let v : ℚ := (y : ℚ) * dv
          let s_u : ℤ := ⌊u⌋
          let s_u_plus_one : ℤ := min (s_u + 1) ((lower_lod_tile.width : ℤ) - 1)
          let s_v : ℤ := ⌊v⌋
          let s_v_plus_one : ℤ := min (s_v + 1) ((lower_lod_tile.height : ℤ) - 1)
          let top_left :=
            lower_lod_tile.our_data (s_u + s_v * (lower_lod_tile.width : ℤ)).toNat
          let bottom_left :=
            lower_lod_tile.our_data (s_u + s_v_plus_one * (lower_lod_tile.width : ℤ)).toNat
          let top_right :=
            lower_lod_tile.our_data (s_u_plus_one + s_v * (lower_lod_tile.width : ℤ)).toNat
          let bottom_right :=
            lower_lod_tile.our_data (s_u_plus_one + s_v_plus_one * (lower_lod_tile.width : ℤ)).toNat
          let frac_u : ℚ := u - ⌊u⌋
          let frac_v : ℚ := v - ⌊v⌋
          (1 - frac_u) * (1 - frac_v) * top_left +
            frac_u * (1 - frac_v) * top_right +
            (1 - frac_u) * frac_v * bottom_left +
            frac_u * frac_v * bottom_right
        else 0),
      lod_factor⟩

/-- Tile.create_tile_sampled_from_more_sparse_lod: public wrapper for the
conformal resample. -/
def Tile.create_tile_sampled_from_more_sparse_lod (lower_lod_tile : Tile)
    (lod_factor : ℤ) : Except String Tile :=
  Tile.sample_from_lower_lod_level_tile lower_lod_tile lod_factor

/-! Stitching.  The source loops mutate both tiles' Float32Arrays in place;
here each loop is a fold threading the pair (ours, other) of buffers with
single-index writes, exactly following the source's index arithmetic.  The
Tile-level entry points perform the source's dimension check first. -/

/-- One iteration of Tile.average_to_tile_on_left's loop at row y: averages
left[y*w + w-1] (right column of the left tile) with ours[y*w] (our left
column) and writes the average into both. -/
def average_left_step (w : ℕ) (pr : Buf × Buf) (y : ℕ) : Buf × Buf :=
  let left_index := y * w + (w - 1)
  let our_index := y * w
  let average := (pr.2 left_index + pr.1 our_index) / 2
  (pr.1.write our_index average, pr.2.write left_index average)

/-- The full loop of Tile.average_to_tile_on_left over rows 0..h-1 on the
pair (ours, left) of buffers. -/
def average_left_loop (w h : ℕ) (ours left : Buf) : Buf × Buf :=
  (List.range h).foldl (average_left_step w) (ours, left)

/-- Tile.average_to_tile_on_left: checks both tiles have identical
dimensions, then averages our first column with the left tile's last column,
writing the result into both tiles. -/
def Tile.average_to_tile_on_left (self left : Tile) : Except String (Tile × Tile) :=
  if self.width ≠ left.width ∨ self.height ≠ left.height then
    .error "Tile.average_to_tile_on_left: sizes do not match"
  else
    let pr := average_left_loop self.width self.height self.our_data left.our_data
    .ok ({ self with our_data := pr.1 }, { left with our_data := pr.2 })

/-- One iteration of Tile.average_to_tile_on_top's loop at column x: averages
top[(h-1)*w + x] (bottom row of the top tile) with ours[x] (our top row) and
writes the average into both. -/
def average_top_step (w h : ℕ) (pr : Buf × Buf) (x : ℕ) : Buf × Buf :=
  let top_index := (h - 1) * w + x
  let our_index := x
  let average := (pr.2 top_index + pr.1 our_index) / 2
  (pr.1.write our_index average, pr.2.write top_index average)

/-- The full loop of Tile.average_to_tile_on_top over columns 0..w-1 on the
pair (ours, top) of buffers. -/
def average_top_loop (w h : ℕ) (ours top : Buf) : Buf × Buf :=
  (List.range w).foldl (average_top_step w h) (ours, top)

/-- Tile.average_to_tile_on_top: checks both tiles have identical dimensions,
then averages our top row with the top tile's bottom row, writing into both. -/
def Tile.average_to_tile_on_top (self top : Tile) : Except String (Tile × Tile) :=
  if self.width ≠ top.width ∨ self.height ≠ top.height then
    .error "Tile.average_to_tile_on_top: sizes do not match"
  else
    let pr := average_top_loop self.width self.height self.our_data top.our_data
    .ok ({ self with our_data := pr.1 }, { top with our_data := pr.2 })

/-- Tile.average_top_left_corner on the four buffers (ours, left, top_left,
top), all of dimension w by h (no size check in the source): averages
left[w-1] (its top-right), top_left[w*h-1] (its bottom-right),
top[w*(h-1)] (its bottom-left) and ours[0] (our top-left) and writes the
single average into all four. -/
def average_corner_bufs (w h : ℕ) (ours left top_left top : Buf) :
    Buf × Buf × Buf × Buf :=
  let left_index := w - 1
  let top_left_index := w * h - 1
  let top_index := w * (h - 1)
  let our_index := 0
  let average := (left left_index + top_left top_left_index +
                  top top_index + ours our_index) / 4
  (ours.write our_index average, left.write left_index average,
   top_left.write top_left_index average, top.write top_index average)

/-- Utilities.ts bicubic: the cubic convolution kernel, evaluated separably
in x (four row interpolants x0..x3) then in y.  Verbatim transcription of the
source arithmetic. -/
def bicubic (xf yf
    p00 p01 p02 p03 p10 p11 p12 p13
    p20 p21 p22 p23 p30 p31 p32 p33 : ℚ) : ℚ :=
  let yf2 := yf * yf
  let xf2 := xf * xf
  let xf3 := xf * xf2
  let x00 := p03 - p02 - p00 + p01
  let x01 := p00 - p01 - x00
  let x02 := p02 - p00
  let x0 := x00 * xf3 + x01 * xf2 + x02 * xf + p01
  let x10 := p13 - p12 - p10 + p11
  let x11 := p10 - p11 - x10
  let x12 := p12 - p10
  let x1 := x10 * xf3 + x11 * xf2 + x12 * xf + p11
  let x20 := p23 - p22 - p20 + p21
  let x21 := p20 - p21 - x20
  let x22 := p22 - p20
  let x2 := x20 * xf3 + x21 * xf2 + x22 * xf + p21
  let x30 := p33 - p32 - p30 + p31
  let x31 := p30 - p31 - x30
  let x32 := p32 - p30
  let x3 := x30 * xf3 + x31 * xf2 + x32 * xf + p31
  let y0 := x3 - x2 - x0 + x1
  let y1 := x0 - x1 - y0
  let y2 := x2 - x0
  y0 * yf * yf2 + y1 * yf2 + y2 * yf + x1

/-- The local sample closure of PerlinTerrain.interpolate_from_terrain:
other_map[((index_x + off_x) & other_width_mask) +
(((index_y + off_y) & other_height_mask) * other_width)].  JavaScript bitwise
AND first converts each operand to its 32-bit two's-complement pattern
(ToInt32); for |a| < 2^31 that pattern is a mod 2^32, so AND with the
nonnegative mask size-1 is Nat.land of that pattern with the mask, a
nonnegative wrapped index. -/
def PerlinTerrain.sample_wrapped (other : PerlinTerrain)
    (index_x index_y off_x off_y : ℤ) : ℚ :=
  other.map (Nat.land ((index_x + off_x).emod (2 ^ 32)).toNat other.width_mask +
             Nat.land ((index_y + off_y).emod (2 ^ 32)).toNat other.height_mask *
               other.width)

/-- PerlinTerrain.interpolate_from_terrain: cubic upsampling of a smaller
terrain into this one.  Size preconditions first; then for every destination
cell (row-major write index i, x = i mod width, y = i div width) the source
coordinate steps dx = other_width / width per cell (sample_x accumulates dx,
so it equals x*dx exactly), a 4x4 neighbourhood is gathered with wraparound,
and bicubic is evaluated.  The offsets are transcribed exactly from the
source: the fourth neighbourhood row p30..p33 uses off_y = 0, the same as the
third row p20..p23 (the source omits the +1 row step). -/
def PerlinTerrain.interpolate_from_terrain (self terrain : PerlinTerrain) :
    Except String PerlinTerrain :=
  if (terrain.width : ℤ) > (self.width : ℤ) then
    .error "PerlinTerrain.interpolate_from_terrain: sampling terrain width too large"
  else if (terrain.height : ℤ) > (self.height : ℤ) then
    .error "PerlinTerrain.interpolate_from_terrain: sampling terrain height too large"
  else
    let dx : ℚ := (terrain.width : ℚ) / (self.width : ℚ)
    let dy : ℚ := (terrain.height : ℚ) / (self.height : ℚ)
    .ok { self with map := fun i =>
      if i < self.height * self.width then
        let x : ℕ := i % self.width
        let y : ℕ := i / self.width
        let sample_x : ℚ := (x : ℚ) * dx
        let sample_y : ℚ := (y : ℚ) * dy
        let frac_x : ℚ := sample_x - ⌊sample_x⌋
        let frac_y : ℚ := sample_y - ⌊sample_y⌋
        let index_x : ℤ := ⌊sample_x⌋
        let index_y : ℤ := ⌊sample_y⌋
        (bicubic frac_x frac_y
          (terrain.sample_wrapped index_x index_y (-2) (-2))
          (terrain.sample_wrapped index_x index_y (-1) (-2))
          (terrain.sample_wrapped index_x index_y 0 (-2))
          (terrain.sample_wrapped index_x index_y 1 (-2))
          (terrain.sample_wrapped index_x index_y (-2) (-1))
          (terrain.sample_wrapped index_x index_y (-1) (-1))
          (terrain.sample_wrapped index_x index_y 0 (-1))
          (terrain.sample_wrapped index_x index_y 1 (-1))
          (terrain.sample_wrapped index_x index_y (-2) 0)
          (terrain.sample_wrapped index_x index_y (-1) 0)
          (terrain.sample_wrapped index_x index_y 0 0)
          (terrain.sample_wrapped index_x index_y 1 0)
          (terrain.sample_wrapped index_x index_y (-2) 0)
          (terrain.sample_wrapped index_x index_y (-1) 0)
          (terrain.sample_wrapped index_x index_y 0 0)
          (terrain.sample_wrapped index_x index_y 1 0))
      else 0 }

/-! The per-frame LandScape blend entry points.  Each starts with the same
factor-grid validation, the only RangeError raised on a malformed grid: it
compares factors.length against y_splits + 1 and, per the source comment,
checks the primary dimension only; row lengths are never inspected
(out-of-range element reads in the body yield undefined, not a RangeError).
We model the validation of each entry point. -/

/-- The factor-grid validation of LandScape.demo_do_lod_lerp_for_factors
(the software blend path). -/
def LandScape.demo_do_lod_lerp_for_factors_check (y_splits : ℕ)
    (factors : List (List ℚ)) : Except String Unit :=
  if factors.length ≠ y_splits + 1 then
    .error "LandScape.demo_do_lod_lerp_for_factors: factors array is the wrong size"
  else
    .ok ()

/-- The factor-grid validation of LandScape.demo_shader_render_with_factors
(the shader-regenerate blend path). -/
def LandScape.demo_shader_render_with_factors_check (y_splits : ℕ)
    (factors : List (List ℚ)) : Except String Unit :=
  if factors.length ≠ y_splits + 1 then
    .error "LandScape.demo_shader_render_with_factors: factors array is the wrong size"
  else
    .ok ()

/-- The factor-grid validation of LandScape.demo_shader_render_careful_uniforms
(the uniform-update blend path). -/
def LandScape.demo_shader_render_careful_uniforms_check (y_splits : ℕ)
    (factors : List (List ℚ)) : Except String Unit :=
  if factors.length ≠ y_splits + 1 then
    .error "LandScape.demo_shader_render_careful_uniforms: factors array is the wrong size"
  else
    .ok ()

/-! Tile.lerp.  To reason about allocation and mutation we model the heap of
Float32Arrays explicitly: a Store is the list of live buffers and a TileRef
holds the index of its buffer in the store.  new Float32Array(this.our_data)
appends a fresh copy at the end of the store; every element write goes
through the store. -/

/-- The heap of live Float32Array buffers. -/
abbrev Store := List Buf

/-- Dereference a buffer id (ids at or beyond the store length never occur
for valid references). -/
def Store.read (s : Store) (id : ℕ) : Buf := s.getD id (fun _ => 0)

/-- Write one element of one buffer in the store. -/
def Store.writeAt (s : Store) (id i : ℕ) (v : ℚ) : Store :=
  s.set id ((s.read id).write i v)

/-- A Tile whose buffer lives in a Store: our_data is the buffer's id. -/
structure TileRef where
  region : Region
  width : ℕ
  height : ℕ
  our_data : ℕ
  lod_factor : ℤ

/-- Tile.lerp: blends this tile with a same-region target tile under four
corner factors.  Mirrors the source exactly: the region equality check; a
fresh copy of this tile's buffer (new Float32Array(this.our_data)) appended
to the store; then the double loop (outer bound this.width stepping
v += dv = 1/height, inner bound this.height stepping u += du = 1/width; over
exact rationals v = y*dv and u = x*du).  The write index is initialised to 0
and never incremented in the source, so every iteration writes new_data[0];
that defect is preserved here. -/
def Tile.lerp (s : Store) (self target_tile : TileRef) (factors : List ℚ) :
    Except String (Store × TileRef) :=
  if (self.region.is_equal target_tile.region) = false then
    .error "Tile.lerp: regions represented were not equal"
  else
    let new_id := s.length
    let s0 : Store := s ++ [s.read self.our_data]
    let tile : TileRef :=
      ⟨self.region, self.width, self.height, new_id, self.lod_factor⟩
    let du : ℚ := 1 / (self.width : ℚ)
    let dv : ℚ := 1 / (self.height : ℚ)
    let s1 := (List.range self.width).foldl (fun st y =>
      (List.range self.height).foldl (fun st2 x =>
        let u : ℚ := (x : ℚ) * du
        let v : ℚ := (y : ℚ) * dv
        let factor :=
          (1 - u) * (1 - v) * factors.getD 0 0 +
          u * (1 - v) * factors.getD 2 0 +
          (1 - u) * v * factors.getD 1 0 +
          u * v * factors.getD 3 0
        let index := 0
        Store.writeAt st2 new_id index
          ((Store.read st2 self.our_data index) * (1 - factor) +
           (Store.read st2 target_tile.our_data index) * factor)) st) s0
    .ok (s1, tile)

/-- PerlinTerrain.get_region: a region representing the whole field. -/
def PerlinTerrain.get_region (t : PerlinTerrain) : Region :=
  ⟨0, 0, (t.width : ℤ), (t.height : ℤ)⟩

/-! The stitching pass of LandScape._construct_lod_data (the loop over the
grid running average_to_tile_on_left, average_to_tile_on_top and
average_top_left_corner).  At one lod level the state is the grid of tile
buffers indexed (row y, column x).  All tiles at a lod level share one width
and height: every child of subdivide_region has the same integer-truncated
span, so every tile at lod has resolution floor(span / 2^lod) in each axis.
Hence the dimension checks of the stitch functions always pass during the
pass, and the pass is modelled on the bare buffers. -/

/-- The grid of tile sample buffers at one lod level, indexed (y, x). -/
abbrev TileGrid := ℕ × ℕ → Buf

/-- Replace one tile's buffer in the grid. -/
def TileGrid.set (g : TileGrid) (p : ℕ × ℕ) (b : Buf) : TileGrid :=
  fun q => if q = p then b else g q

/-- First block of the stitching loop body at cell (y, x): when a left
neighbour exists, average our left column with its right column (writes both
tiles back into the grid). -/
def stitch_cell_left (w h : ℕ) (g : TileGrid) (y x : ℕ) : TileGrid :=
  if 0 < x then
    let pr := average_left_loop w h (g (y, x)) (g (y, x - 1))
    TileGrid.set (TileGrid.set g (y, x) pr.1) (y, x - 1) pr.2
  else g

/-- Second block: when a top neighbour exists, average our top row with its
bottom row. -/
def stitch_cell_top (w h : ℕ) (g : TileGrid) (y x : ℕ) : TileGrid :=
  if 0 < y then
    let pr := average_top_loop w h (g (y, x)) (g (y - 1, x))
    TileGrid.set (TileGrid.set g (y, x) pr.1) (y - 1, x) pr.2
  else g

/-- Third block: when both neighbours exist, average the four corner samples
at the junction of (y-1, x-1), (y-1, x), (y, x-1) and (y, x) into all four
tiles. -/
def stitch_cell_corner (w h : ℕ) (g : TileGrid) (y x : ℕ) : TileGrid :=
  if 0 < x ∧ 0 < y then
    let q := average_corner_bufs w h (g (y, x)) (g (y, x - 1))
               (g (y - 1, x - 1)) (g (y - 1, x))
    TileGrid.set (TileGrid.set (TileGrid.set (TileGrid.set g
      (y, x) q.1) (y, x - 1) q.2.1) (y - 1, x - 1) q.2.2.1) (y - 1, x) q.2.2.2
  else g

/-- The body of the stitching loop for one grid cell (y, x) at one lod
level: left-stitch when a left neighbour exists, then top-stitch when a top
neighbour exists, then the four-way corner average when both exist — in the
source's order. -/
def stitch_cell (w h : ℕ) (g : TileGrid) (y x : ℕ) : TileGrid :=
  stitch_cell_corner w h (stitch_cell_top w h (stitch_cell_left w h g y x) y x) y x

/-- One row of the stitching pass: cells x = 0..gx-1 of row y, left to
right. -/
def stitch_row (gx w h : ℕ) (y : ℕ) (g : TileGrid) : TileGrid :=
  (List.range gx).foldl (fun g x => stitch_cell w h g y x) g

/-- The full stitching pass at one lod level: rows y = 0..gy-1 top to
bottom, cells left to right within each row, exactly the traversal order of
LandScape._construct_lod_data. -/
def stitch_pass (gy gx w h : ℕ) (g : TileGrid) : TileGrid :=
  (List.range gy).foldl (fun g y => stitch_row gx w h y g) g

/-- The grid of tile buffers LandScape._construct_lod_data builds at one lod
level (lod ≥ 1) before stitching: the terrain's region is subdivided into
y_splits rows by x_splits columns and each child region is downsampled
directly from the terrain.  A failed build stands for the thrown RangeError
(in every use below all builds succeed). -/
def construct_lod_grid (terrain : PerlinTerrain) (x_splits y_splits : ℕ)
    (lod : ℤ) : TileGrid :=
  let regions := (terrain.get_region).subdivide_region x_splits y_splits
  fun p =>
    match Tile.sample_region_from_perlin
        ((regions.getD p.1 []).getD p.2 ⟨0, 0, 0, 0⟩) terrain lod with
    | .ok t => t.our_data
    | .error _ => fun _ => 0

/-- A concrete 16 by 16 height field: sample 1 holds 16, all others 0.  Used
to instantiate the landscape construction LandScape(4, 4, terrain, 3, ...) in
counterexamples. -/
def terrain16 : PerlinTerrain :=
  ⟨16, 16, fun i => if i = 8 then 16 else 0⟩

/-! Helper lemmas about the loop folds. -/

theorem foldl_add_range (n : ℕ) (init : ℚ) (f : ℕ → ℚ) :
    (List.range n).foldl (fun a i => a + f i) init =
      init + ∑ i ∈ Finset.range n, f i := by
  induction n with
  | zero => simp
  | succ n ih =>
      simp [List.range_succ, List.foldl_append, Finset.sum_range_succ, ih, add_assoc]

theorem mapM_range_ok {α : Type} (f : ℕ → Except String α) (g : ℕ → α) (n : ℕ)
    (h : ∀ k < n, f k = .ok (g k)) :
    (List.range n).mapM f = .ok ((List.range n).map g) := by
  induction n with
  | zero => rfl
  | succ n ih =>
      have hn : ∀ k < n, f k = .ok (g k) := fun k hk => h k (Nat.lt_succ_of_lt hk)
      simp only [List.range_succ, List.mapM_append, List.map_append, ih hn,
        List.mapM_cons, List.mapM_nil, h n (Nat.lt_succ_self n), List.map_cons,
        List.map_nil]
      rfl

/-- Characterisation of PerlinTerrain.sum_block shared by several proofs:
the error condition and the closed-form double sum. -/
theorem sum_block_char (t : PerlinTerrain) (x y w h : ℤ) :
    ((∃ e, t.sum_block x y w h = .error e) ↔
      (x < 0 ∨ y < 0 ∨ x + w > (t.width : ℤ) ∨ y + h > (t.height : ℤ))) ∧
    (¬(x < 0 ∨ y < 0 ∨ x + w > (t.width : ℤ) ∨ y + h > (t.height : ℤ)) →
      t.sum_block x y w h =
        .ok (∑ j ∈ Finset.range h.toNat, ∑ i ∈ Finset.range w.toNat,
          t.map ((x + i) + (y + j) * t.width).toNat)) := by
  constructor
  · unfold PerlinTerrain.sum_block
    by_cases hx : x < 0 ∨ x + w > (t.width : ℤ)
    · simp only [hx, if_true]
      constructor
      · intro _
        rcases hx with hx | hx
        · exact Or.inl hx
        · exact Or.inr (Or.inr (Or.inl hx))
      · intro _
        exact ⟨_, rfl⟩
    · simp only [hx, if_false]
      by_cases hy : y < 0 ∨ y + h > (t.height : ℤ)
      · simp only [hy, if_true]
        constructor
        · intro _
          rcases hy with hy | hy
          · exact Or.inr (Or.inl hy)
          · exact Or.inr (Or.inr (Or.inr hy))
        · intro _
          exact ⟨_, rfl⟩
      · simp only [hy, if_false]
        constructor
        · rintro ⟨e, he⟩
          exact absurd he (by simp)
        · intro hcl
          exfalso
          rcases hcl with hc | hc | hc | hc
          · exact hx (Or.inl hc)
          · exact hy (Or.inl hc)
          · exact hx (Or.inr hc)
          · exact hy (Or.inr hc)
  · intro hok
    have hx : ¬(x < 0 ∨ x + w > (t.width : ℤ)) := by
      intro hc
      rcases hc with hc | hc
      · exact hok (Or.inl hc)
      · exact hok (Or.inr (Or.inr (Or.inl hc)))
    have hy : ¬(y < 0 ∨ y + h > (t.height : ℤ)) := by
      intro hc
      rcases hc with hc | hc
      · exact hok (Or.inr (Or.inl hc))
      · exact hok (Or.inr (Or.inr (Or.inr hc)))
    unfold PerlinTerrain.sum_block
    simp only [hx, if_false, hy]
    congr 1
    have hinner : (fun (acc : ℚ) (j : ℕ) =>
        (List.range w.toNat).foldl (fun (acc2 : ℚ) (i : ℕ) =>
          acc2 + t.map ((x + (i : ℤ)) + (y + (j : ℤ)) * t.width).toNat) acc) =
        (fun (acc : ℚ) (j : ℕ) =>
          acc + ∑ i ∈ Finset.range w.toNat,
            t.map ((x + (i : ℤ)) + (y + (j : ℤ)) * t.width).toNat) := by
      funext acc j
      exact foldl_add_range _ _ _
    rw [hinner, foldl_add_range]
    simp

/-- C7: PerlinTerrain.sum_block returns exactly the direct summation of the
w by h sub-rectangle at (x, y) of the field's flat buffer when the rectangle
lies within field bounds, and raises a range-violation error if and only if
the rectangle exceeds field bounds (x < 0, y < 0, x + w > width, or
y + h > height).  The source only reads the buffer (the embedding is a pure
function of the field), so the buffer is unchanged in every case. -/
theorem sum_block_spec (t : PerlinTerrain) (x y w h : ℤ) :
    ((∃ e, t.sum_block x y w h = .error e) ↔
      (x < 0 ∨ y < 0 ∨ x + w > (t.width : ℤ) ∨ y + h > (t.height : ℤ))) ∧
    (¬(x < 0 ∨ y < 0 ∨ x + w > (t.width : ℤ) ∨ y + h > (t.height : ℤ)) →
      t.sum_block x y w h =
        .ok (∑ j ∈ Finset.range h.toNat, ∑ i ∈ Finset.range w.toNat,
          t.map ((x + i) + (y + j) * t.width).toNat)) :=
  sum_block_char t x y w h

/-- A concrete 4 by 4 field whose sample at flat index i is the rational i,
used as witness input. -/
def terrain4 : PerlinTerrain := ⟨4, 4, fun i => (i : ℚ)⟩

/-- Witness for C7: at the in-bounds rectangle (1, 2, 2, 2) of terrain4 the
sum is 9 + 10 + 13 + 14 = 46, and the rectangle (3, 0, 2, 1) exceeds the
right edge and errors. -/
theorem sum_block_spec_witness :
    terrain4.sum_block 1 2 2 2 = .ok 46 ∧
    (∃ e, terrain4.sum_block 3 0 2 1 = .error e) := by
  constructor
  · have hok := (sum_block_spec terrain4 1 2 2 2).2 (by norm_num [terrain4])
    rw [hok]
    rw [show Int.toNat 2 = 2 from rfl]
    norm_num [terrain4, Finset.sum_range_succ]
    simp [Int.toNat_ofNat]
    norm_num
  · exact (sum_block_spec terrain4 3 0 2 1).1.2 (by norm_num [terrain4])

/-! Floor arithmetic helpers for the subdivision geometry. -/

theorem floor_add_floor_le (a b : ℚ) : ⌊a⌋ + ⌊b⌋ ≤ ⌊a + b⌋ := by
  apply Int.le_floor.mpr
  push_cast
  exact add_le_add (Int.floor_le a) (Int.floor_le b)

theorem floor_add_le_succ (a b : ℚ) : ⌊a + b⌋ ≤ ⌊a⌋ + ⌊b⌋ + 1 := by
  have h1 := Int.lt_floor_add_one a
  have h2 := Int.lt_floor_add_one b
  have h3 : ⌊a + b⌋ < ⌊a⌋ + ⌊b⌋ + 2 := Int.floor_lt.mpr (by push_cast; linarith)
  omega

theorem getD_map_range {α : Type} (f : ℕ → α) (n j : ℕ) (d : α) (h : j < n) :
    ((List.range n).map f).getD j d = f j := by
  simp [List.getD, List.getElem?_map, List.getElem?_range h]

/-- The 1-dimensional geometry of one subdivision axis: child i starts at
floor(x + i*s) and spans floor(s), where s = span/m.  Gives: the first child
starts at the parent origin; successive children are disjoint with a gap of
at most one index unit at each internal boundary; all children lie inside
the parent; and when m divides the span the children tile the axis exactly
with starts x + i*(span/m) and span span/m. -/
theorem subdiv_axis (x span : ℤ) (m : ℕ) (hm : 1 ≤ m) (hs : 0 ≤ span) :
    (⌊(x : ℚ) + (0 : ℕ) * ((span : ℚ) / m)⌋ = x) ∧
    (∀ i : ℕ,
      ⌊(x : ℚ) + i * ((span : ℚ) / m)⌋ + ⌊(span : ℚ) / m⌋ ≤
        ⌊(x : ℚ) + (i + 1 : ℕ) * ((span : ℚ) / m)⌋ ∧
      ⌊(x : ℚ) + (i + 1 : ℕ) * ((span : ℚ) / m)⌋ ≤
        ⌊(x : ℚ) + i * ((span : ℚ) / m)⌋ + ⌊(span : ℚ) / m⌋ + 1) ∧
    (∀ i : ℕ, i < m →
      x ≤ ⌊(x : ℚ) + i * ((span : ℚ) / m)⌋ ∧
      ⌊(x : ℚ) + i * ((span : ℚ) / m)⌋ + ⌊(span : ℚ) / m⌋ ≤ x + span) ∧
    ((m : ℤ) ∣ span →
      (∀ i : ℕ, ⌊(x : ℚ) + i * ((span : ℚ) / m)⌋ = x + i * (span / m)) ∧
      ⌊(span : ℚ) / m⌋ = span / m) := by
  have hm0 : (m : ℚ) ≠ 0 := by
    exact_mod_cast (show 0 < m from hm).ne'
  have hsq : (0 : ℚ) ≤ (span : ℚ) / m := by
    apply div_nonneg
    · exact_mod_cast hs
    · positivity
  refine ⟨?_, ?_, ?_, ?_⟩
  · simp
  · intro i
    constructor
    · have h := floor_add_floor_le ((x : ℚ) + i * ((span : ℚ) / m)) ((span : ℚ) / m)
      have he : (x : ℚ) + i * ((span : ℚ) / m) + (span : ℚ) / m =
          (x : ℚ) + (i + 1 : ℕ) * ((span : ℚ) / m) := by
        push_cast
        ring
      rw [he] at h
      omega
    · have h := floor_add_le_succ ((x : ℚ) + i * ((span : ℚ) / m)) ((span : ℚ) / m)
      have he : (x : ℚ) + i * ((span : ℚ) / m) + (span : ℚ) / m =
          (x : ℚ) + (i + 1 : ℕ) * ((span : ℚ) / m) := by
        push_cast
        ring
      rw [he] at h
      omega
  · intro i hi
    constructor
    · apply Int.le_floor.mpr
      have : (0 : ℚ) ≤ i * ((span : ℚ) / m) := by positivity
      linarith
    · have h1 := floor_add_floor_le ((x : ℚ) + i * ((span : ℚ) / m)) ((span : ℚ) / m)
      have h2 : (x : ℚ) + i * ((span : ℚ) / m) + (span : ℚ) / m ≤ (x : ℚ) + span := by
        have hi1 : ((i : ℚ) + 1) ≤ (m : ℚ) := by
          exact_mod_cast hi
        have hmul : ((i : ℚ) + 1) * ((span : ℚ) / m) ≤ (m : ℚ) * ((span : ℚ) / m) :=
          mul_le_mul_of_nonneg_right hi1 hsq
        have hcancel : (m : ℚ) * ((span : ℚ) / m) = (span : ℚ) := by
          field_simp
        nlinarith
      have h3 : ⌊(x : ℚ) + i * ((span : ℚ) / m) + (span : ℚ) / m⌋ ≤ x + span := by
        calc ⌊(x : ℚ) + i * ((span : ℚ) / m) + (span : ℚ) / m⌋
            ≤ ⌊((x + span : ℤ) : ℚ)⌋ := Int.floor_le_floor (by push_cast at h2 ⊢; linarith)
          _ = x + span := Int.floor_intCast _
      omega
  · rintro ⟨k, hk⟩
    have hsk : (span : ℚ) / m = (k : ℚ) := by
      rw [hk]
      push_cast
      rw [mul_div_assoc]
      field_simp
    have hdiv : span / (m : ℤ) = k := by
      rw [hk]
      exact Int.mul_ediv_cancel_left k (by exact_mod_cast (show 0 < m from hm).ne')
    constructor
    · intro i
      rw [hsk, hdiv]
      have : (x : ℚ) + (i : ℚ) * (k : ℚ) = ((x + i * k : ℤ) : ℚ) := by
        push_cast
        ring
      rw [this, Int.floor_intCast]
    · rw [hsk, hdiv, Int.floor_intCast]

/-- C3 (amended): subdivide_region emits exactly x_splits * y_splits child
regions in row-major (y outer, x inner) order, each with integer-truncated
origin floor(parent + index*step) and span floor(step).  The children are
pairwise disjoint and lie inside the parent's index range, but truncation can
leave a gap of at most one index unit at each internal row/column boundary
(not only at the final row/column); when x_splits divides x_span and
y_splits divides y_span the children tile the parent exactly. -/
theorem subdivide_region_partition (r : Region) (m n : ℕ) (hm : 1 ≤ m)
    (hn : 1 ≤ n) (hxs : 0 ≤ r.x_span) (hys : 0 ≤ r.y_span) :
    ((r.subdivide_region m n).length = n ∧
      ∀ j < n, ((r.subdivide_region m n).getD j []).length = m) ∧
    (∀ j < n, ∀ i < m,
      ((r.subdivide_region m n).getD j []).getD i ⟨0, 0, 0, 0⟩ =
        ⟨⌊(r.x : ℚ) + i * ((r.x_span : ℚ) / m)⌋,
         ⌊(r.y : ℚ) + j * ((r.y_span : ℚ) / n)⌋,
         ⌊(r.x_span : ℚ) / m⌋, ⌊(r.y_span : ℚ) / n⌋⟩) ∧
    ((⌊(r.x : ℚ) + (0 : ℕ) * ((r.x_span : ℚ) / m)⌋ = r.x) ∧
     (∀ i : ℕ,
       ⌊(r.x : ℚ) + i * ((r.x_span : ℚ) / m)⌋ + ⌊(r.x_span : ℚ) / m⌋ ≤
         ⌊(r.x : ℚ) + (i + 1 : ℕ) * ((r.x_span : ℚ) / m)⌋ ∧
       ⌊(r.x : ℚ) + (i + 1 : ℕ) * ((r.x_span : ℚ) / m)⌋ ≤
         ⌊(r.x : ℚ) + i * ((r.x_span : ℚ) / m)⌋ + ⌊(r.x_span : ℚ) / m⌋ + 1) ∧
     (∀ i : ℕ, i < m →
       r.x ≤ ⌊(r.x : ℚ) + i * ((r.x_span : ℚ) / m)⌋ ∧
       ⌊(r.x : ℚ) + i * ((r.x_span : ℚ) / m)⌋ + ⌊(r.x_span : ℚ) / m⌋ ≤
         r.x + r.x_span)) ∧
    ((⌊(r.y : ℚ) + (0 : ℕ) * ((r.y_span : ℚ) / n)⌋ = r.y) ∧
     (∀ j : ℕ,
       ⌊(r.y : ℚ) + j * ((r.y_span : ℚ) / n)⌋ + ⌊(r.y_span : ℚ) / n⌋ ≤
         ⌊(r.y : ℚ) + (j + 1 : ℕ) * ((r.y_span : ℚ) / n)⌋ ∧
       ⌊(r.y : ℚ) + (j + 1 : ℕ) * ((r.y_span : ℚ) / n)⌋ ≤
         ⌊(r.y : ℚ) + j * ((r.y_span : ℚ) / n)⌋ + ⌊(r.y_span : ℚ) / n⌋ + 1) ∧
     (∀ j : ℕ, j < n →
       r.y ≤ ⌊(r.y : ℚ) + j * ((r.y_span : ℚ) / n)⌋ ∧
       ⌊(r.y : ℚ) + j * ((r.y_span : ℚ) / n)⌋ + ⌊(r.y_span : ℚ) / n⌋ ≤
         r.y + r.y_span)) ∧
    (((m : ℤ) ∣ r.x_span →
      (∀ i : ℕ, ⌊(r.x : ℚ) + i * ((r.x_span : ℚ) / m)⌋ = r.x + i * (r.x_span / m)) ∧
      ⌊(r.x_span : ℚ) / m⌋ = r.x_span / m) ∧
     ((n : ℤ) ∣ r.y_span →
      (∀ j : ℕ, ⌊(r.y : ℚ) + j * ((r.y_span : ℚ) / n)⌋ = r.y + j * (r.y_span / n)) ∧
      ⌊(r.y_span : ℚ) / n⌋ = r.y_span / n)) := by
  obtain ⟨hx0, hxadj, hxin, hxdvd⟩ := subdiv_axis r.x r.x_span m hm hxs
  obtain ⟨hy0, hyadj, hyin, hydvd⟩ := subdiv_axis r.y r.y_span n hn hys
  refine ⟨⟨?_, ?_⟩, ?_, ⟨hx0, hxadj, hxin⟩, ⟨hy0, hyadj, hyin⟩, hxdvd, hydvd⟩
  · simp [Region.subdivide_region]
  · intro j hj
    unfold Region.subdivide_region
    rw [getD_map_range _ n j _ hj]
    simp
  · intro j hj i hi
    unfold Region.subdivide_region
    rw [getD_map_range _ n j _ hj, getD_map_range _ m i _ hi]
    rfl

/-- Witness for C3: the parent (0, 0, 8, 8) split 2 by 2 (the divisible
case) has child (row 1, column 1) equal to (4, 4, 4, 4). -/
theorem subdivide_region_partition_witness :
    ((1 : ℕ) ≤ 2 ∧ (0 : ℤ) ≤ 8) ∧
    ((((Region.mk 0 0 8 8).subdivide_region 2 2).getD 1 []).getD 1 ⟨0, 0, 0, 0⟩ =
      Region.mk 4 4 4 4) := by
  refine ⟨⟨by norm_num, by norm_num⟩, ?_⟩
  have h := (subdivide_region_partition ⟨0, 0, 8, 8⟩ 2 2 (by norm_num) (by norm_num)
    (by norm_num) (by norm_num)).2.1 1 (by norm_num) 1 (by norm_num)
  rw [h]
  norm_num

/-- C3 counterexample: splitting the region (0, 0, 10, 10) into 4 columns and
1 row leaves the index column 4 uncovered by every child, although column 4
lies strictly inside the parent even after discounting one truncated unit at
the far edge (4 < 0 + 10 - 1): the children occupy columns [0,2), [2,4),
[5,7), [7,9), with an interior one-unit gap at column 4, so the claimed
gap-free tiling fails. -/
theorem subdivide_region_counterexample :
    (∀ j < 1, ∀ i < 4,
      ¬(((((Region.mk 0 0 10 10).subdivide_region 4 1).getD j []).getD i
            ⟨0, 0, 0, 0⟩).x ≤ 4 ∧
        (4 : ℤ) < ((((Region.mk 0 0 10 10).subdivide_region 4 1).getD j []).getD i
            ⟨0, 0, 0, 0⟩).x +
          ((((Region.mk 0 0 10 10).subdivide_region 4 1).getD j []).getD i
            ⟨0, 0, 0, 0⟩).x_span)) ∧
    (4 : ℤ) < 0 + 10 - 1 := by
  have hval : (Region.mk 0 0 10 10).subdivide_region 4 1 =
      [[⟨0, 0, 2, 10⟩, ⟨2, 0, 2, 10⟩, ⟨5, 0, 2, 10⟩, ⟨7, 0, 2, 10⟩]] := by
    unfold Region.subdivide_region
    norm_num [List.range_succ, Region.make]
  rw [hval]
  refine ⟨?_, by norm_num⟩
  intro j hj i hi
  interval_cases j <;> interval_cases i <;> simp [List.getD]

/-! Store lemmas for the lerp heap model. -/

theorem Store.read_writeAt_ne (s : Store) (id i : ℕ) (v : ℚ) (id2 : ℕ)
    (h : id2 ≠ id) : Store.read (Store.writeAt s id i v) id2 = Store.read s id2 := by
  simp [Store.read, Store.writeAt, List.getD, List.getElem?_set, Ne.symm h]

theorem Store.length_writeAt (s : Store) (id i : ℕ) (v : ℚ) :
    (Store.writeAt s id i v).length = s.length := by
  simp [Store.writeAt]

theorem Store.read_append_left (s : Store) (b : Buf) (id : ℕ)
    (h : id < s.length) : Store.read (s ++ [b]) id = Store.read s id := by
  simp [Store.read, List.getD, List.getElem?_append, h]

theorem foldl_inv {α β : Type} (P : α → Prop) (f : α → β → α) (l : List β)
    (a : α) (h0 : P a) (hstep : ∀ x b, P x → P (f x b)) : P (l.foldl f a) := by
  induction l generalizing a with
  | nil => exact h0
  | cons b t ih => exact ih (f a b) (hstep a b h0)

/-- C10: Tile.lerp allocates a fresh buffer for its result (the new tile's
buffer id is the next free slot of the store, distinct from both inputs')
and leaves every pre-existing buffer in the store — in particular both input
tiles' sample buffers — completely unchanged.  Unlike the stitching
operations, blending never mutates its arguments. -/
theorem lerp_fresh_and_preserves (s : Store) (self target : TileRef)
    (factors : List ℚ)
    (hself : self.our_data < s.length) (htarget : target.our_data < s.length)
    (hfac : factors.length = 4)
    (hreg : self.region.is_equal target.region = true) :
    ∃ s1 tile, Tile.lerp s self target factors = .ok (s1, tile) ∧
      tile.our_data = s.length ∧
      tile.our_data ≠ self.our_data ∧ tile.our_data ≠ target.our_data ∧
      s1.length = s.length + 1 ∧
      (∀ id < s.length, Store.read s1 id = Store.read s id) := by
  unfold Tile.lerp
  rw [hreg]
  simp only [Bool.true_eq_false, if_false]
  refine ⟨_, _, rfl, rfl, ?_, ?_, ?_, ?_⟩
  · show s.length ≠ self.our_data
    omega
  · show s.length ≠ target.our_data
    omega
  · have base : (s ++ [Store.read s self.our_data]).length = s.length + 1 := by
      simp
    refine foldl_inv (fun (st : Store) => st.length = s.length + 1) _ _ _ base ?_
    intro st y hst
    refine foldl_inv (fun (st2 : Store) => st2.length = s.length + 1) _ _ _ hst ?_
    intro st2 x hst2
    rw [Store.length_writeAt]
    exact hst2
  · intro id hid
    refine foldl_inv
      (fun (st : Store) => ∀ id2 < s.length, Store.read st id2 = Store.read s id2)
      _ _ _ ?_ ?_ id hid
    · exact fun id2 hid2 => Store.read_append_left s _ id2 hid2
    · intro st y hst
      refine foldl_inv
        (fun (st2 : Store) => ∀ id2 < s.length, Store.read st2 id2 = Store.read s id2)
        _ _ _ hst ?_
      intro st2 x hst2 id2 hid2
      rw [Store.read_writeAt_ne _ _ _ _ _ (by omega)]
      exact hst2 id2 hid2

/-- Witness for C10: a two-buffer store with two one-sample tiles over the
region (0, 0, 1, 1); lerp succeeds, returns buffer id 2 and leaves buffers 0
and 1 unchanged. -/
theorem lerp_fresh_and_preserves_witness :
    ∃ s1 tile,
      Tile.lerp [Buf.ofList [3], Buf.ofList [9]]
        ⟨⟨0, 0, 1, 1⟩, 1, 1, 0, 0⟩ ⟨⟨0, 0, 1, 1⟩, 1, 1, 1, 0⟩ [0, 0, 0, 0] =
        .ok (s1, tile) ∧
      tile.our_data = 2 ∧ tile.our_data ≠ 0 ∧ tile.our_data ≠ 1 ∧
      s1.length = 3 ∧
      (∀ id < 2, Store.read s1 id =
        Store.read [Buf.ofList [3], Buf.ofList [9]] id) := by
  have h := lerp_fresh_and_preserves [Buf.ofList [3], Buf.ofList [9]]
    ⟨⟨0, 0, 1, 1⟩, 1, 1, 0, 0⟩ ⟨⟨0, 0, 1, 1⟩, 1, 1, 1, 0⟩ [0, 0, 0, 0]
    (by simp) (by simp) (by simp) (by simp [Region.is_equal])
  simpa using h

/-- C2 at the failing input: the lerp loop never advances its write index
(the source initialises index to 0 and never increments it), so with corner
factors all 1 only sample 0 of the fresh buffer receives the target's value;
sample 1 keeps this tile's value 0 instead of the conformal target's 7,
although the function's own documentation says factors all 1 yield the
target tile's data. -/
theorem lerp_ones_failing_input :
    ∃ s1 tile,
      Tile.lerp [Buf.ofList [0, 0], Buf.ofList [5, 7]]
        ⟨⟨0, 0, 2, 1⟩, 2, 1, 0, 0⟩ ⟨⟨0, 0, 2, 1⟩, 2, 1, 1, 0⟩ [1, 1, 1, 1] =
        .ok (s1, tile) ∧
      Store.read s1 tile.our_data 0 = 5 ∧
      Store.read s1 tile.our_data 1 = 0 ∧
      Store.read [Buf.ofList [0, 0], Buf.ofList [5, 7]] 1 1 = 7 := by
  refine ⟨_, _, rfl, ?_, ?_, ?_⟩
  · show Store.read _ 2 0 = 5
    norm_num [Tile.lerp, Region.is_equal, List.range_succ, Store.writeAt,
      Store.read, Buf.write, Buf.ofList, List.getD]
  · show Store.read _ 2 1 = 0
    norm_num [Tile.lerp, Region.is_equal, List.range_succ, Store.writeAt,
      Store.read, Buf.write, Buf.ofList, List.getD]
  · norm_num [Store.read, Buf.ofList, List.getD]

/-- C8 (amended): each per-frame blend entry point raises its
range-violation error exactly when the factor grid's row count differs from
y_splits + 1.  Row lengths are never validated (the source comment says the
check covers the primary dimension only), so a grid with the right row count
but wrong row lengths passes the validation. -/
theorem factor_grid_checks_spec (y_splits : ℕ) (factors : List (List ℚ)) :
    ((∃ e, LandScape.demo_do_lod_lerp_for_factors_check y_splits factors =
        .error e) ↔ factors.length ≠ y_splits + 1) ∧
    ((∃ e, LandScape.demo_shader_render_with_factors_check y_splits factors =
        .error e) ↔ factors.length ≠ y_splits + 1) ∧
    ((∃ e, LandScape.demo_shader_render_careful_uniforms_check y_splits factors =
        .error e) ↔ factors.length ≠ y_splits + 1) := by
  unfold LandScape.demo_do_lod_lerp_for_factors_check
    LandScape.demo_shader_render_with_factors_check
    LandScape.demo_shader_render_careful_uniforms_check
  by_cases h : factors.length = y_splits + 1 <;> simp [h]

/-- C8 counterexample: with x_splits = y_splits = 1 the claimed shape is
2 by 2, yet the grid [[0,0,0],[0,0,0]] — correct row count, every row of the
wrong length 3 — passes all three entry points' validation without any
range-violation error. -/
theorem factor_grid_check_counterexample :
    LandScape.demo_do_lod_lerp_for_factors_check 1 [[0, 0, 0], [0, 0, 0]] = .ok () ∧
    LandScape.demo_shader_render_with_factors_check 1 [[0, 0, 0], [0, 0, 0]] = .ok () ∧
    LandScape.demo_shader_render_careful_uniforms_check 1 [[0, 0, 0], [0, 0, 0]] = .ok () ∧
    ([[0, 0, 0], [0, 0, 0]] : List (List ℚ)).length = 1 + 1 ∧
    (([[0, 0, 0], [0, 0, 0]] : List (List ℚ)).getD 0 []).length ≠ 1 + 1 := by
  refine ⟨?_, ?_, ?_, by simp, by simp⟩ <;>
    simp [LandScape.demo_do_lod_lerp_for_factors_check,
      LandScape.demo_shader_render_with_factors_check,
      LandScape.demo_shader_render_careful_uniforms_check]

/-- Evaluation lemma for the downsampling build, shared by several proofs:
for an in-bounds region and lod in [1,10] the build succeeds, with
floor(span / 2^lod) resolution and each sample the block sum times
1/2^(2*lod). -/
theorem downsample_eval (original : Tile) (lod : ℤ)
    (h1 : 1 ≤ lod) (h10 : lod ≤ 10)
    (hx0 : 0 ≤ original.region.x) (hy0 : 0 ≤ original.region.y)
    (hxs : 0 ≤ original.region.x_span) (hys : 0 ≤ original.region.y_span)
    (hxw : original.region.x + original.region.x_span ≤ (original.terrain.width : ℤ))
    (hyh : original.region.y + original.region.y_span ≤ (original.terrain.height : ℤ)) :
    ∃ t, Tile.create_downsampled_tile original lod = .ok t ∧
      ((t.width : ℤ) = Int.fdiv original.region.x_span (2 ^ lod.toNat : ℕ) ∧
       (t.height : ℤ) = Int.fdiv original.region.y_span (2 ^ lod.toNat : ℕ)) ∧
      ∀ xx, xx < t.width → ∀ yy, yy < t.height →
        t.our_data (yy * t.width + xx) =
          (∑ j ∈ Finset.range (2 ^ lod.toNat), ∑ i ∈ Finset.range (2 ^ lod.toNat),
            original.terrain.map
              (((original.region.x + (xx : ℤ) * ((2 ^ lod.toNat : ℕ) : ℤ)) + (i : ℤ)) +
               ((original.region.y + (yy : ℤ) * ((2 ^ lod.toNat : ℕ) : ℤ)) + (j : ℤ)) *
                 original.terrain.width).toNat) * (1 / (2 ^ (2 * lod.toNat) : ℚ)) := by
  have hcond : ¬(lod < 0 ∨ lod > 10) := by omega
  set power : ℕ := 2 ^ lod.toNat with hpow
  have hpowpos : 0 < power := Nat.pos_pow_of_pos _ (by norm_num)
  set wZ : ℤ := Int.fdiv original.region.x_span (power : ℤ) with hwZ
  set hZ : ℤ := Int.fdiv original.region.y_span (power : ℤ) with hhZ
  have hwZe : wZ = original.region.x_span / (power : ℤ) :=
    Int.fdiv_eq_ediv _ (by positivity)
  have hhZe : hZ = original.region.y_span / (power : ℤ) :=
    Int.fdiv_eq_ediv _ (by positivity)
  have hwZnn : 0 ≤ wZ := by
    rw [hwZe]
    exact Int.ediv_nonneg hxs (by positivity)
  have hhZnn : 0 ≤ hZ := by
    rw [hhZe]
    exact Int.ediv_nonneg hys (by positivity)
  have hwcast : ((wZ.toNat : ℕ) : ℤ) = wZ := Int.toNat_of_nonneg hwZnn
  have hhcast : ((hZ.toNat : ℕ) : ℤ) = hZ := Int.toNat_of_nonneg hhZnn
  have hwmul : wZ * (power : ℤ) ≤ original.region.x_span := by
    rw [hwZe]
    exact Int.ediv_mul_le _ (by positivity)
  have hhmul : hZ * (power : ℤ) ≤ original.region.y_span := by
    rw [hhZe]
    exact Int.ediv_mul_le _ (by positivity)
  -- every block request of the loop is in bounds, so sum_block succeeds
  have hblocks : ∀ idx, idx < wZ.toNat * hZ.toNat ∨ idx < hZ.toNat * wZ.toNat →
      original.terrain.sum_block
        (original.region.x + ((idx % wZ.toNat : ℕ) : ℤ) * (power : ℤ))
        (original.region.y + ((idx / wZ.toNat : ℕ) : ℤ) * (power : ℤ))
        (power : ℤ) (power : ℤ) =
      .ok (∑ j ∈ Finset.range power, ∑ i ∈ Finset.range power,
        original.terrain.map
          (((original.region.x + ((idx % wZ.toNat : ℕ) : ℤ) * (power : ℤ)) + (i : ℤ)) +
           ((original.region.y + ((idx / wZ.toNat : ℕ) : ℤ) * (power : ℤ)) + (j : ℤ)) *
             original.terrain.width).toNat) := by
    intro idx hidx
    have hidx2 : idx < hZ.toNat * wZ.toNat := by
      rcases hidx with hidx | hidx
      · rwa [Nat.mul_comm] at hidx
      · exact hidx
    have hidx3 : idx < wZ.toNat * hZ.toNat := by
      rwa [Nat.mul_comm] at hidx2
    have hwpos : 0 < wZ.toNat := by
      by_contra hw0
      have : wZ.toNat = 0 := by omega
      rw [this] at hidx2
      omega
    have hxmod : (idx % wZ.toNat : ℕ) < wZ.toNat := Nat.mod_lt _ hwpos
    have hydiv : (idx / wZ.toNat : ℕ) < hZ.toNat := Nat.div_lt_of_lt_mul hidx3
    have hxb : original.region.x + ((idx % wZ.toNat : ℕ) : ℤ) * (power : ℤ) +
        (power : ℤ) ≤ (original.terrain.width : ℤ) := by
      have h1 : (((idx % wZ.toNat : ℕ) : ℤ) + 1) * (power : ℤ) ≤ wZ * (power : ℤ) := by
        apply mul_le_mul_of_nonneg_right _ (by positivity)
        have : (((idx % wZ.toNat : ℕ) : ℤ) + 1) ≤ ((wZ.toNat : ℕ) : ℤ) := by
          exact_mod_cast hxmod
        omega
      nlinarith
    have hyb : original.region.y + ((idx / wZ.toNat : ℕ) : ℤ) * (power : ℤ) +
        (power : ℤ) ≤ (original.terrain.height : ℤ) := by
      have h1 : (((idx / wZ.toNat : ℕ) : ℤ) + 1) * (power : ℤ) ≤ hZ * (power : ℤ) := by
        apply mul_le_mul_of_nonneg_right _ (by positivity)
        have : (((idx / wZ.toNat : ℕ) : ℤ) + 1) ≤ ((hZ.toNat : ℕ) : ℤ) := by
          exact_mod_cast hydiv
        omega
      nlinarith
    have hok := (sum_block_char original.terrain
      (original.region.x + ((idx % wZ.toNat : ℕ) : ℤ) * (power : ℤ))
      (original.region.y + ((idx / wZ.toNat : ℕ) : ℤ) * (power : ℤ))
      (power : ℤ) (power : ℤ)).2 (by
        push_neg
        refine ⟨by positivity, by positivity, by omega, by omega⟩)
    rw [show ((power : ℤ)).toNat = power from Int.toNat_natCast power] at hok
    exact hok
  -- the loop over all cells succeeds
  have hmap := mapM_range_ok
    (fun idx => original.terrain.sum_block
      (original.region.x + ((idx % wZ.toNat : ℕ) : ℤ) * (power : ℤ))
      (original.region.y + ((idx / wZ.toNat : ℕ) : ℤ) * (power : ℤ))
      (power : ℤ) (power : ℤ))
    (fun idx => ∑ j ∈ Finset.range power, ∑ i ∈ Finset.range power,
      original.terrain.map
        (((original.region.x + ((idx % wZ.toNat : ℕ) : ℤ) * (power : ℤ)) + (i : ℤ)) +
         ((original.region.y + ((idx / wZ.toNat : ℕ) : ℤ) * (power : ℤ)) + (j : ℤ)) *
           original.terrain.width).toNat)
    (hZ.toNat * wZ.toNat)
    (fun k hk => hblocks k (Or.inr hk))
  unfold Tile.create_downsampled_tile Tile.sample_region_from_perlin
  rw [if_neg hcond]
  simp only [← hpow, ← hwZ, ← hhZ]
  rw [hmap]
  refine ⟨_, rfl, ⟨hwcast, hhcast⟩, ?_⟩
  intro xx hxx yy hyy
  have hxxw : xx < wZ.toNat := hxx
  have hyyh : yy < hZ.toNat := hyy
  have hlt : yy * wZ.toNat + xx < hZ.toNat * wZ.toNat := by
    have h1 : yy + 1 ≤ hZ.toNat := hyyh
    have h2 : (yy + 1) * wZ.toNat ≤ hZ.toNat * wZ.toNat :=
      Nat.mul_le_mul_right _ h1
    have h3 : yy * wZ.toNat + xx < (yy + 1) * wZ.toNat := by
      have : (yy + 1) * wZ.toNat = yy * wZ.toNat + wZ.toNat := by ring
      omega
    omega
  show (((List.range (hZ.toNat * wZ.toNat)).map _).getD (yy * wZ.toNat + xx) 0) *
      (1 / ((power : ℚ) * (power : ℚ))) = _
  rw [getD_map_range _ _ _ _ hlt]
  have hmod : (yy * wZ.toNat + xx) % wZ.toNat = xx := by
    rw [Nat.add_comm, Nat.add_mul_mod_self_right]
    exact Nat.mod_eq_of_lt hxxw
  have hdiv : (yy * wZ.toNat + xx) / wZ.toNat = yy := by
    rw [Nat.add_comm]
    rw [Nat.add_mul_div_right _ _ (by omega : 0 < wZ.toNat)]
    rw [Nat.div_eq_of_lt hxxw]
    omega
  rw [hmod, hdiv]
  have hinv : (1 : ℚ) / ((power : ℚ) * (power : ℚ)) = 1 / (2 ^ (2 * lod.toNat) : ℚ) := by
    rw [hpow]
    push_cast
    rw [← pow_add, two_mul]
  rw [hinv]

/-- C4: for a tile over an in-bounds region and lod_factor in [1,10],
downsampling recomputes every output sample directly from the source height
field: the build succeeds, the output resolution is
floor(span / 2^lod_factor) in each axis, and output sample (x, y) equals the
sum of the 2^lod_factor by 2^lod_factor source block starting at
(region.x + x*2^lod_factor, region.y + y*2^lod_factor) multiplied by
1/2^(2*lod_factor) — the mean of that block.  No other tile's data is
consulted: the value is a function of the terrain map alone. -/
theorem create_downsampled_tile_spec (original : Tile) (lod : ℤ)
    (h1 : 1 ≤ lod) (h10 : lod ≤ 10)
    (hx0 : 0 ≤ original.region.x) (hy0 : 0 ≤ original.region.y)
    (hxs : 0 ≤ original.region.x_span) (hys : 0 ≤ original.region.y_span)
    (hxw : original.region.x + original.region.x_span ≤ (original.terrain.width : ℤ))
    (hyh : original.region.y + original.region.y_span ≤ (original.terrain.height : ℤ)) :
    ∃ t, Tile.create_downsampled_tile original lod = .ok t ∧
      ((t.width : ℤ) = Int.fdiv original.region.x_span (2 ^ lod.toNat : ℕ) ∧
       (t.height : ℤ) = Int.fdiv original.region.y_span (2 ^ lod.toNat : ℕ)) ∧
      ∀ xx, xx < t.width → ∀ yy, yy < t.height →
        t.our_data (yy * t.width + xx) =
          (∑ j ∈ Finset.range (2 ^ lod.toNat), ∑ i ∈ Finset.range (2 ^ lod.toNat),
            original.terrain.map
              (((original.region.x + (xx : ℤ) * ((2 ^ lod.toNat : ℕ) : ℤ)) + (i : ℤ)) +
               ((original.region.y + (yy : ℤ) * ((2 ^ lod.toNat : ℕ) : ℤ)) + (j : ℤ)) *
                 original.terrain.width).toNat) * (1 / (2 ^ (2 * lod.toNat) : ℚ)) :=
  downsample_eval original lod h1 h10 hx0 hy0 hxs hys hxw hyh

/-- Witness for C4: downsampling the whole of terrain4 (the master tile's
region (0, 0, 4, 4)) at lod_factor 1 gives a 2 by 2 tile whose sample (0, 0)
is the mean (0 + 1 + 4 + 5)/4 = 5/2 of the top-left 2 by 2 block and whose
sample (1, 1) is the mean (10 + 11 + 14 + 15)/4 = 25/2 of the bottom-right
block. -/
theorem create_downsampled_tile_spec_witness :
    ∃ t, Tile.create_downsampled_tile (Tile.create_master_tile terrain4) 1 = .ok t ∧
      (t.width : ℤ) = 2 ∧ (t.height : ℤ) = 2 ∧
      t.our_data 0 = 5 / 2 ∧ t.our_data (1 * t.width + 1) = 25 / 2 := by
  obtain ⟨t, heq, ⟨hw, hh⟩, hdata⟩ := create_downsampled_tile_spec
    (Tile.create_master_tile terrain4) 1 (by norm_num) (by norm_num)
    (by norm_num [Tile.create_master_tile, terrain4])
    (by norm_num [Tile.create_master_tile, terrain4])
    (by norm_num [Tile.create_master_tile, terrain4])
    (by norm_num [Tile.create_master_tile, terrain4])
    (by norm_num [Tile.create_master_tile, terrain4])
    (by norm_num [Tile.create_master_tile, terrain4])
  have hw2 : (t.width : ℤ) = 2 := by
    rw [hw]
    show Int.fdiv 4 2 = 2
    decide
  have hh2 : (t.height : ℤ) = 2 := by
    rw [hh]
    show Int.fdiv 4 2 = 2
    decide
  have hwn : t.width = 2 := by omega
  have hhn : t.height = 2 := by omega
  refine ⟨t, heq, hw2, hh2, ?_, ?_⟩
  · have h0 := hdata 0 (by omega) 0 (by omega)
    rw [show (0 * t.width + 0 : ℕ) = 0 by omega] at h0
    rw [h0]
    norm_num [Tile.create_master_tile, terrain4, Finset.sum_range_succ]
    rw [show Int.toNat 4 = 4 from rfl, show Int.toNat 5 = 5 from rfl]
    norm_num
  · have h3 := hdata 1 (by omega) 1 (by omega)
    rw [h3]
    norm_num [Tile.create_master_tile, terrain4, Finset.sum_range_succ]
    rw [show Int.toNat 10 = 10 from rfl, show Int.toNat 11 = 11 from rfl,
       show Int.toNat 14 = 14 from rfl, show Int.toNat 15 = 15 from rfl]
    norm_num

/-- C5 (amended): for every source field no larger than the destination,
upsampling succeeds and every destination cell (x, y) is the cubic
convolution kernel evaluated at the fractional source coordinate
(x*dx, y*dy) with dx = source_width/dest_width, dy = source_height/
dest_height, on sixteen wraparound samples whose x-offsets are
(-2, -1, 0, +1) in every row but whose y-offsets are (-2, -1, 0, 0): the
fourth neighbourhood row repeats the third row's offset 0 instead of
stepping to +1, exactly as the source is written. -/
theorem interpolate_from_terrain_spec (self terrain : PerlinTerrain)
    (hw : terrain.width ≤ self.width) (hh : terrain.height ≤ self.height) :
    ∃ r, PerlinTerrain.interpolate_from_terrain self terrain = .ok r ∧
      r.width = self.width ∧ r.height = self.height ∧
      ∀ x, x < self.width → ∀ y, y < self.height →
        r.map (y * self.width + x) =
          bicubic
            ((x : ℚ) * ((terrain.width : ℚ) / (self.width : ℚ)) -
              ⌊(x : ℚ) * ((terrain.width : ℚ) / (self.width : ℚ))⌋)
            ((y : ℚ) * ((terrain.height : ℚ) / (self.height : ℚ)) -
              ⌊(y : ℚ) * ((terrain.height : ℚ) / (self.height : ℚ))⌋)
            (terrain.sample_wrapped
              ⌊(x : ℚ) * ((terrain.width : ℚ) / (self.width : ℚ))⌋
              ⌊(y : ℚ) * ((terrain.height : ℚ) / (self.height : ℚ))⌋ (-2) (-2))
            (terrain.sample_wrapped
              ⌊(x : ℚ) * ((terrain.width : ℚ) / (self.width : ℚ))⌋
              ⌊(y : ℚ) * ((terrain.height : ℚ) / (self.height : ℚ))⌋ (-1) (-2))
            (terrain.sample_wrapped
              ⌊(x : ℚ) * ((terrain.width : ℚ) / (self.width : ℚ))⌋
              ⌊(y : ℚ) * ((terrain.height : ℚ) / (self.height : ℚ))⌋ 0 (-2))
            (terrain.sample_wrapped
              ⌊(x : ℚ) * ((terrain.width : ℚ) / (self.width : ℚ))⌋
              ⌊(y : ℚ) * ((terrain.height : ℚ) / (self.height : ℚ))⌋ 1 (-2))
            (terrain.sample_wrapped
              ⌊(x : ℚ) * ((terrain.width : ℚ) / (self.width : ℚ))⌋
              ⌊(y : ℚ) * ((terrain.height : ℚ) / (self.height : ℚ))⌋ (-2) (-1))
            (terrain.sample_wrapped
              ⌊(x : ℚ) * ((terrain.width : ℚ) / (self.width : ℚ))⌋
              ⌊(y : ℚ) * ((terrain.height : ℚ) / (self.height : ℚ))⌋ (-1) (-1))
            (terrain.sample_wrapped
              ⌊(x : ℚ) * ((terrain.width : ℚ) / (self.width : ℚ))⌋
              ⌊(y : ℚ) * ((terrain.height : ℚ) / (self.height : ℚ))⌋ 0 (-1))
            (terrain.sample_wrapped
              ⌊(x : ℚ) * ((terrain.width : ℚ) / (self.width : ℚ))⌋
              ⌊(y : ℚ) * ((terrain.height : ℚ) / (self.height : ℚ))⌋ 1 (-1))
            (terrain.sample_wrapped
              ⌊(x : ℚ) * ((terrain.width : ℚ) / (self.width : ℚ))⌋
              ⌊(y : ℚ) * ((terrain.height : ℚ) / (self.height : ℚ))⌋ (-2) 0)
            (terrain.sample_wrapped
              ⌊(x : ℚ) * ((terrain.width : ℚ) / (self.width : ℚ))⌋
              ⌊(y : ℚ) * ((terrain.height : ℚ) / (self.height : ℚ))⌋ (-1) 0)
            (terrain.sample_wrapped
              ⌊(x : ℚ) * ((terrain.width : ℚ) / (self.width : ℚ))⌋
              ⌊(y : ℚ) * ((terrain.height : ℚ) / (self.height : ℚ))⌋ 0 0)
            (terrain.sample_wrapped
              ⌊(x : ℚ) * ((terrain.width : ℚ) / (self.width : ℚ))⌋
              ⌊(y : ℚ) * ((terrain.height : ℚ) / (self.height : ℚ))⌋ 1 0)
            (terrain.sample_wrapped
              ⌊(x : ℚ) * ((terrain.width : ℚ) / (self.width : ℚ))⌋
              ⌊(y : ℚ) * ((terrain.height : ℚ) / (self.height : ℚ))⌋ (-2) 0)
            (terrain.sample_wrapped
              ⌊(x : ℚ) * ((terrain.width : ℚ) / (self.width : ℚ))⌋
              ⌊(y : ℚ) * ((terrain.height : ℚ) / (self.height : ℚ))⌋ (-1) 0)
            (terrain.sample_wrapped
              ⌊(x : ℚ) * ((terrain.width : ℚ) / (self.width : ℚ))⌋
              ⌊(y : ℚ) * ((terrain.height : ℚ) / (self.height : ℚ))⌋ 0 0)
            (terrain.sample_wrapped
              ⌊(x : ℚ) * ((terrain.width : ℚ) / (self.width : ℚ))⌋
              ⌊(y : ℚ) * ((terrain.height : ℚ) / (self.height : ℚ))⌋ 1 0) := by
  have hwc : ¬((terrain.width : ℤ) > (self.width : ℤ)) := by
    push_neg
    exact_mod_cast hw
  have hhc : ¬((terrain.height : ℤ) > (self.height : ℤ)) := by
    push_neg
    exact_mod_cast hh
  unfold PerlinTerrain.interpolate_from_terrain
  rw [if_neg hwc, if_neg hhc]
  refine ⟨_, rfl, rfl, rfl, ?_⟩
  intro x hx y hy
  have hlt : y * self.width + x < self.height * self.width := by
    have h2 : (y + 1) * self.width ≤ self.height * self.width :=
      Nat.mul_le_mul_right _ hy
    have h3 : (y + 1) * self.width = y * self.width + self.width := by ring
    omega
  have hmod : (y * self.width + x) % self.width = x := by
    rw [Nat.add_comm, Nat.add_mul_mod_self_right]
    exact Nat.mod_eq_of_lt hx
  have hdiv : (y * self.width + x) / self.width = y := by
    rw [Nat.add_comm, Nat.add_mul_div_right _ _ (by omega : 0 < self.width),
      Nat.div_eq_of_lt hx]
    omega
  show (if y * self.width + x < self.height * self.width then _ else 0) = _
  rw [if_pos hlt]
  simp only [hmod, hdiv]

/-- The neighbourhood sampler as the C5 claim (and the intended bicubic
kernel) describes it: identical to the source's per-cell computation except
that the fourth neighbourhood row p30..p33 steps to y-offset +1 instead of
repeating offset 0. -/
def interpolate_claimed_cell (self terrain : PerlinTerrain) (x y : ℕ) : ℚ :=
  let dx : ℚ := (terrain.width : ℚ) / (self.width : ℚ)
  let dy : ℚ := (terrain.height : ℚ) / (self.height : ℚ)
  let sample_x : ℚ := (x : ℚ) * dx
  let sample_y : ℚ := (y : ℚ) * dy
  let frac_x : ℚ := sample_x - ⌊sample_x⌋
  let frac_y : ℚ := sample_y - ⌊sample_y⌋
  let index_x : ℤ := ⌊sample_x⌋
  let index_y : ℤ := ⌊sample_y⌋
  bicubic frac_x frac_y
    (terrain.sample_wrapped index_x index_y (-2) (-2))
    (terrain.sample_wrapped index_x index_y (-1) (-2))
    (terrain.sample_wrapped index_x index_y 0 (-2))
    (terrain.sample_wrapped index_x index_y 1 (-2))
    (terrain.sample_wrapped index_x index_y (-2) (-1))
    (terrain.sample_wrapped index_x index_y (-1) (-1))
    (terrain.sample_wrapped index_x index_y 0 (-1))
    (terrain.sample_wrapped index_x index_y 1 (-1))
    (terrain.sample_wrapped index_x index_y (-2) 0)
    (terrain.sample_wrapped index_x index_y (-1) 0)
    (terrain.sample_wrapped index_x index_y 0 0)
    (terrain.sample_wrapped index_x index_y 1 0)
    (terrain.sample_wrapped index_x index_y (-2) 1)
    (terrain.sample_wrapped index_x index_y (-1) 1)
    (terrain.sample_wrapped index_x index_y 0 1)
    (terrain.sample_wrapped index_x index_y 1 1)

/-- A 2 by 2 source field with samples 1, 2, 3, 4 (row-major). -/
def src2 : PerlinTerrain := ⟨2, 2, Buf.ofList [1, 2, 3, 4]⟩

/-- A 4 by 4 destination field, initially all zero. -/
def dest4 : PerlinTerrain := ⟨4, 4, fun _ => 0⟩

/-- C5 counterexample: upsampling the 2 by 2 field src2 into a 4 by 4 field,
the code's destination cell (x, y) = (0, 1) evaluates to 13/4, whereas the
kernel on a true 4 by 4 neighbourhood — sixteen samples at distinct offsets
(-2, -1, 0, +1 in each axis), as the claim states — gives 3: the source's
fourth sample row repeats y-offset 0 instead of +1, so the claimed sampling
pattern does not describe the implementation. -/
theorem interpolate_offsets_counterexample :
    ∃ r, PerlinTerrain.interpolate_from_terrain dest4 src2 = .ok r ∧
      r.map (1 * dest4.width + 0) = 13 / 4 ∧
      interpolate_claimed_cell dest4 src2 0 1 = 3 ∧
      (13 / 4 : ℚ) ≠ 3 := by
  have e1 : PerlinTerrain.sample_wrapped src2 0 0 (-2) (-2) = 1 := rfl
  have e2 : PerlinTerrain.sample_wrapped src2 0 0 (-1) (-2) = 2 := rfl
  have e3 : PerlinTerrain.sample_wrapped src2 0 0 0 (-2) = 1 := rfl
  have e4 : PerlinTerrain.sample_wrapped src2 0 0 1 (-2) = 2 := rfl
  have e5 : PerlinTerrain.sample_wrapped src2 0 0 (-2) (-1) = 3 := rfl
  have e6 : PerlinTerrain.sample_wrapped src2 0 0 (-1) (-1) = 4 := rfl
  have e7 : PerlinTerrain.sample_wrapped src2 0 0 0 (-1) = 3 := rfl
  have e8 : PerlinTerrain.sample_wrapped src2 0 0 1 (-1) = 4 := rfl
  have e9 : PerlinTerrain.sample_wrapped src2 0 0 (-2) 0 = 1 := rfl
  have e10 : PerlinTerrain.sample_wrapped src2 0 0 (-1) 0 = 2 := rfl
  have e11 : PerlinTerrain.sample_wrapped src2 0 0 0 0 = 1 := rfl
  have e12 : PerlinTerrain.sample_wrapped src2 0 0 1 0 = 2 := rfl
  have e13 : PerlinTerrain.sample_wrapped src2 0 0 (-2) 1 = 3 := rfl
  have e14 : PerlinTerrain.sample_wrapped src2 0 0 (-1) 1 = 4 := rfl
  have e15 : PerlinTerrain.sample_wrapped src2 0 0 0 1 = 3 := rfl
  have e16 : PerlinTerrain.sample_wrapped src2 0 0 1 1 = 4 := rfl
  have hchk1 : ¬((src2.width : ℤ) > (dest4.width : ℤ)) := by
    norm_num [src2, dest4]
  have hchk2 : ¬((src2.height : ℤ) > (dest4.height : ℤ)) := by
    norm_num [src2, dest4]
  have hsw : src2.width = 2 := rfl
  have hsh : src2.height = 2 := rfl
  unfold PerlinTerrain.interpolate_from_terrain
  rw [if_neg hchk1, if_neg hchk2]
  refine ⟨_, rfl, ?_, ?_, by norm_num⟩
  · show (if (1 * dest4.width + 0) < dest4.height * dest4.width then _ else 0) = _
    rw [if_pos (by norm_num [dest4])]
    norm_num [dest4, hsw, hsh]
    rw [e1, e2, e3, e4, e5, e6, e7, e8, e9, e10, e11, e12]
    norm_num [bicubic]
  · unfold interpolate_claimed_cell
    norm_num [dest4, hsw, hsh]
    rw [e1, e2, e3, e4, e5, e6, e7, e8, e9, e10, e11, e12, e13, e14, e15, e16]
    norm_num [bicubic]

/-- Witness for C5: upsampling src2 (2 by 2) into dest4 (4 by 4) succeeds
and cell (0, 1) evaluates the kernel at fractions (0, 1/2) on the sixteen
wrapped samples of the source, with the fourth row repeating the third. -/
theorem interpolate_from_terrain_spec_witness :
    (src2.width ≤ dest4.width ∧ src2.height ≤ dest4.height) ∧
    ∃ r, PerlinTerrain.interpolate_from_terrain dest4 src2 = .ok r ∧
      r.map (1 * dest4.width + 0) =
        bicubic 0 (1 / 2) 1 2 1 2 3 4 3 4 1 2 1 2 1 2 1 2 := by
  refine ⟨⟨by norm_num [src2, dest4], by norm_num [src2, dest4]⟩, ?_⟩
  obtain ⟨r, heq, hwid, hht, hcell⟩ := interpolate_from_terrain_spec dest4 src2
    (by norm_num [src2, dest4]) (by norm_num [src2, dest4])
  refine ⟨r, heq, ?_⟩
  have h := hcell 0 (by norm_num [dest4]) 1 (by norm_num [dest4])
  rw [h]
  have e1 : PerlinTerrain.sample_wrapped src2 0 0 (-2) (-2) = 1 := rfl
  have e2 : PerlinTerrain.sample_wrapped src2 0 0 (-1) (-2) = 2 := rfl
  have e3 : PerlinTerrain.sample_wrapped src2 0 0 0 (-2) = 1 := rfl
  have e4 : PerlinTerrain.sample_wrapped src2 0 0 1 (-2) = 2 := rfl
  have e5 : PerlinTerrain.sample_wrapped src2 0 0 (-2) (-1) = 3 := rfl
  have e6 : PerlinTerrain.sample_wrapped src2 0 0 (-1) (-1) = 4 := rfl
  have e7 : PerlinTerrain.sample_wrapped src2 0 0 0 (-1) = 3 := rfl
  have e8 : PerlinTerrain.sample_wrapped src2 0 0 1 (-1) = 4 := rfl
  have e9 : PerlinTerrain.sample_wrapped src2 0 0 (-2) 0 = 1 := rfl
  have e10 : PerlinTerrain.sample_wrapped src2 0 0 (-1) 0 = 2 := rfl
  have e11 : PerlinTerrain.sample_wrapped src2 0 0 0 0 = 1 := rfl
  have e12 : PerlinTerrain.sample_wrapped src2 0 0 1 0 = 2 := rfl
  have hsw : src2.width = 2 := rfl
  have hsh : src2.height = 2 := rfl
  norm_num [dest4, hsw, hsh]
  rw [e1, e2, e3, e4, e5, e6, e7, e8, e9, e10, e11, e12]

/-- C6: a conformal tile produced from a coarser tile at a strictly finer
target lod over the same region agrees with the coarser tile at every one of
the coarser tile's own native sample positions: when the conformal
resolution is a per-axis integer multiple (rx, ry) of the coarser tile's
resolution, reading every rx-th column and ry-th row of the conformal
buffer yields exactly the coarser tile's buffer — the bilinear resample is
the identity at the coarser tile's own resolution. -/
theorem conform_identity_at_native_resolution (lower : Tile) (lod : ℤ)
    (hlt : lod < lower.lod_factor) (h0 : 0 ≤ lod) (h10 : lod ≤ 10)
    (rx ry : ℕ) (hrx : 1 ≤ rx) (hry : 1 ≤ ry)
    (hWc : 1 ≤ lower.width) (hHc : 1 ≤ lower.height)
    (hWf : (Int.fdiv lower.region.x_span ((2 ^ lod.toNat : ℕ) : ℤ)).toNat =
      rx * lower.width)
    (hHf : (Int.fdiv lower.region.y_span ((2 ^ lod.toNat : ℕ) : ℤ)).toNat =
      ry * lower.height) :
    ∃ t, Tile.create_tile_sampled_from_more_sparse_lod lower lod = .ok t ∧
      t.width = rx * lower.width ∧ t.height = ry * lower.height ∧
      ∀ i, i < lower.width → ∀ j, j < lower.height →
        t.our_data ((j * ry) * t.width + i * rx) =
          lower.our_data (j * lower.width + i) := by
  have hc1 : ¬(lower.lod_factor ≤ lod) := by omega
  have hc2 : ¬(lod < 0 ∨ lod > 10) := by omega
  unfold Tile.create_tile_sampled_from_more_sparse_lod
    Tile.sample_from_lower_lod_level_tile
  rw [if_neg hc1, if_neg hc2]
  simp only [hWf, hHf]
  refine ⟨_, rfl, rfl, rfl, ?_⟩
  intro i hi j hj
  have hrx0 : rx ≠ 0 := by omega
  have hry0 : ry ≠ 0 := by omega
  have hWc0 : lower.width ≠ 0 := by omega
  have hHc0 : lower.height ≠ 0 := by omega
  have hcol : i * rx < rx * lower.width := by
    calc i * rx < (i + 1) * rx :=
          mul_lt_mul_of_pos_right (by omega) (by omega)
    _ ≤ lower.width * rx := Nat.mul_le_mul_right _ (by omega)
    _ = rx * lower.width := Nat.mul_comm _ _
  have hrow : j * ry < ry * lower.height := by
    calc j * ry < (j + 1) * ry :=
          mul_lt_mul_of_pos_right (by omega) (by omega)
    _ ≤ lower.height * ry := Nat.mul_le_mul_right _ (by omega)
    _ = ry * lower.height := Nat.mul_comm _ _
  have hidx : (j * ry) * (rx * lower.width) + i * rx <
      (ry * lower.height) * (rx * lower.width) := by
    have h2 : (j * ry + 1) * (rx * lower.width) ≤
        (ry * lower.height) * (rx * lower.width) :=
      Nat.mul_le_mul_right _ (by omega)
    have h3 : (j * ry + 1) * (rx * lower.width) =
        (j * ry) * (rx * lower.width) + rx * lower.width := by ring
    omega
  show (if (j * ry) * (rx * lower.width) + i * rx <
      (ry * lower.height) * (rx * lower.width) then _ else 0) = _
  rw [if_pos hidx]
  have hmod : ((j * ry) * (rx * lower.width) + i * rx) % (rx * lower.width) =
      i * rx := by
    rw [Nat.add_comm, Nat.add_mul_mod_self_right]
    exact Nat.mod_eq_of_lt hcol
  have hdiv : ((j * ry) * (rx * lower.width) + i * rx) / (rx * lower.width) =
      j * ry := by
    rw [Nat.add_comm, Nat.add_mul_div_right _ _ (by omega : 0 < rx * lower.width),
      Nat.div_eq_of_lt hcol]
    omega
  simp only [hmod, hdiv]
  have hu : ((i * rx : ℕ) : ℚ) * ((lower.width : ℚ) / ((rx * lower.width : ℕ) : ℚ)) =
      (i : ℚ) := by
    push_cast
    field_simp
    ring
  have hv : ((j * ry : ℕ) : ℚ) * ((lower.height : ℚ) / ((ry * lower.height : ℕ) : ℚ)) =
      (j : ℚ) := by
    push_cast
    field_simp
    ring
  rw [hu, hv]
  rw [Int.floor_natCast, Int.floor_natCast]
  have hfrac : ((i : ℚ) - ((i : ℤ) : ℚ)) = 0 := by
    push_cast
    ring
  have hfrac2 : ((j : ℚ) - ((j : ℤ) : ℚ)) = 0 := by
    push_cast
    ring
  rw [hfrac, hfrac2]
  ring_nf
  have hread : (((i : ℤ) + (j : ℤ) * (lower.width : ℤ)).toNat) =
      j * lower.width + i := by
    have : ((i : ℤ) + (j : ℤ) * (lower.width : ℤ)) =
        ((j * lower.width + i : ℕ) : ℤ) := by
      push_cast
      ring
    rw [this, Int.toNat_natCast]
  rw [hread]

/-- Witness for C6: a 2 by 2 coarser tile at lod 1 over region (0, 0, 4, 4)
with samples 10, 20, 30, 40, conformally resampled at lod 0 into a 4 by 4
tile, agrees with the coarser tile at the native positions (every 2nd sample
each axis): corners (0, 0) and (1, 1) read 10 and 40. -/
theorem conform_identity_witness :
    ∃ t, Tile.create_tile_sampled_from_more_sparse_lod
        ⟨terrain4, ⟨0, 0, 4, 4⟩, 2, 2, Buf.ofList [10, 20, 30, 40], 1⟩ 0 =
        .ok t ∧
      t.width = 4 ∧ t.our_data 0 = 10 ∧ t.our_data 10 = 40 := by
  obtain ⟨t, heq, hw, hh, hdat⟩ := conform_identity_at_native_resolution
    ⟨terrain4, ⟨0, 0, 4, 4⟩, 2, 2, Buf.ofList [10, 20, 30, 40], 1⟩ 0
    (by norm_num) (by norm_num) (by norm_num)
    2 2 (by norm_num) (by norm_num) (by norm_num) (by norm_num) rfl rfl
  have hw4 : t.width = 4 := by
    rw [hw]
    rfl
  refine ⟨t, heq, hw4, ?_, ?_⟩
  · have h := hdat 0 (by norm_num) 0 (by norm_num)
    rw [show ((0 * 2) * t.width + 0 * 2 : ℕ) = 0 by omega] at h
    rw [h]
    rfl
  · have h := hdat 1 (by norm_num) 1 (by norm_num)
    rw [show ((1 * 2) * t.width + 1 * 2 : ℕ) = 10 by omega] at h
    rw [h]
    rfl

/-! Closed forms for the stitch loops, used for the C1 boundary-agreement
proof.  Throughout, row r of a w-wide tile occupies flat indices
r*w .. r*w + (w-1). -/

theorem TileGrid.get_set_same (g : TileGrid) (p : ℕ × ℕ) (b : Buf) :
    TileGrid.set g p b p = b := by
  simp [TileGrid.set]

theorem TileGrid.get_set_ne (g : TileGrid) (p q : ℕ × ℕ) (b : Buf)
    (h : q ≠ p) : TileGrid.set g p b q = g q := by
  simp [TileGrid.set, h]

theorem mul_ne_mul_row {r s w : ℕ} (hw : 1 ≤ w) (h : r ≠ s) : r * w ≠ s * w := by
  intro he
  exact h (Nat.eq_of_mul_eq_mul_right (by omega) he)

theorem average_left_loop_succ (w h : ℕ) (a b : Buf) :
    average_left_loop w (h + 1) a b =
      average_left_step w (average_left_loop w h a b) h := by
  unfold average_left_loop
  rw [List.range_succ, List.foldl_append]
  rfl

theorem average_left_loop_fst_frame (w h : ℕ) (a b : Buf) (i : ℕ)
    (hi : ∀ r < h, i ≠ r * w) : (average_left_loop w h a b).1 i = a i := by
  induction h with
  | zero => rfl
  | succ h ih =>
      rw [average_left_loop_succ]
      unfold average_left_step
      show Buf.write _ (h * w) _ i = a i
      rw [Buf.write_other _ _ _ _ (hi h (by omega))]
      exact ih (fun r hr => hi r (by omega))

theorem average_left_loop_snd_frame (w h : ℕ) (a b : Buf) (i : ℕ)
    (hi : ∀ r < h, i ≠ r * w + (w - 1)) : (average_left_loop w h a b).2 i = b i := by
  induction h with
  | zero => rfl
  | succ h ih =>
      rw [average_left_loop_succ]
      unfold average_left_step
      show Buf.write _ (h * w + (w - 1)) _ i = b i
      rw [Buf.write_other _ _ _ _ (hi h (by omega))]
      exact ih (fun r hr => hi r (by omega))

theorem average_left_loop_fst_at (w h : ℕ) (hw : 1 ≤ w) (a b : Buf) (r : ℕ)
    (hr : r < h) :
    (average_left_loop w h a b).1 (r * w) =
      (b (r * w + (w - 1)) + a (r * w)) / 2 := by
  induction h with
  | zero => omega
  | succ h ih =>
      rw [average_left_loop_succ]
      unfold average_left_step
      by_cases hrh : r = h
      · subst hrh
        show Buf.write _ (r * w) _ (r * w) = _
        rw [Buf.write_same]
        rw [average_left_loop_snd_frame w r a b _
          (fun s hs => by
            intro he
            exact absurd (Nat.add_right_cancel he)
              (mul_ne_mul_row hw (by omega)))]
        rw [average_left_loop_fst_frame w r a b _
          (fun s hs => mul_ne_mul_row hw (by omega))]
      · show Buf.write _ (h * w) _ (r * w) = _
        rw [Buf.write_other _ _ _ _ (mul_ne_mul_row hw hrh)]
        exact ih (by omega)

theorem average_left_loop_snd_at (w h : ℕ) (hw : 1 ≤ w) (a b : Buf) (r : ℕ)
    (hr : r < h) :
    (average_left_loop w h a b).2 (r * w + (w - 1)) =
      (b (r * w + (w - 1)) + a (r * w)) / 2 := by
  induction h with
  | zero => omega
  | succ h ih =>
      rw [average_left_loop_succ]
      unfold average_left_step
      by_cases hrh : r = h
      · subst hrh
        show Buf.write _ (r * w + (w - 1)) _ (r * w + (w - 1)) = _
        rw [Buf.write_same]
        rw [average_left_loop_snd_frame w r a b _
          (fun s hs => by
            intro he
            exact absurd (Nat.add_right_cancel he)
              (mul_ne_mul_row hw (by omega)))]
        rw [average_left_loop_fst_frame w r a b _
          (fun s hs => mul_ne_mul_row hw (by omega))]
      · show Buf.write _ (h * w + (w - 1)) _ (r * w + (w - 1)) = _
        rw [Buf.write_other _ _ _ _ (by
          intro he
          exact absurd (Nat.add_right_cancel he) (mul_ne_mul_row hw hrh))]
        exact ih (by omega)

theorem average_top_fold_succ (w h n : ℕ) (a b : Buf) :
    (List.range (n + 1)).foldl (average_top_step w h) (a, b) =
      average_top_step w h ((List.range n).foldl (average_top_step w h) (a, b)) n := by
  rw [List.range_succ, List.foldl_append]
  rfl

theorem average_top_fold_fst_frame (w h n : ℕ) (a b : Buf) (i : ℕ)
    (hi : ∀ c < n, i ≠ c) :
    ((List.range n).foldl (average_top_step w h) (a, b)).1 i = a i := by
  induction n with
  | zero => rfl
  | succ n ih =>
      rw [average_top_fold_succ]
      show Buf.write _ n _ i = a i
      rw [Buf.write_other _ _ _ _ (hi n (by omega))]
      exact ih (fun c hc => hi c (by omega))

theorem average_top_fold_snd_frame (w h n : ℕ) (a b : Buf) (i : ℕ)
    (hi : ∀ c < n, i ≠ (h - 1) * w + c) :
    ((List.range n).foldl (average_top_step w h) (a, b)).2 i = b i := by
  induction n with
  | zero => rfl
  | succ n ih =>
      rw [average_top_fold_succ]
      show Buf.write _ ((h - 1) * w + n) _ i = b i
      rw [Buf.write_other _ _ _ _ (hi n (by omega))]
      exact ih (fun c hc => hi c (by omega))

theorem average_top_fold_fst_at (w h n : ℕ) (a b : Buf) (c : ℕ) (hc : c < n) :
    ((List.range n).foldl (average_top_step w h) (a, b)).1 c =
      (b ((h - 1) * w + c) + a c) / 2 := by
  induction n with
  | zero => omega
  | succ n ih =>
      rw [average_top_fold_succ]
      by_cases hcn : c = n
      · subst hcn
        show Buf.write _ c _ c = _
        rw [Buf.write_same]
        rw [average_top_fold_snd_frame w h c a b _ (fun s hs => by omega)]
        rw [average_top_fold_fst_frame w h c a b _ (fun s hs => by omega)]
      · show Buf.write _ n _ c = _
        rw [Buf.write_other _ _ _ _ (by omega)]
        exact ih (by omega)

theorem average_top_fold_snd_at (w h n : ℕ) (a b : Buf) (c : ℕ) (hc : c < n) :
    ((List.range n).foldl (average_top_step w h) (a, b)).2 ((h - 1) * w + c) =
      (b ((h - 1) * w + c) + a c) / 2 := by
  induction n with
  | zero => omega
  | succ n ih =>
      rw [average_top_fold_succ]
      by_cases hcn : c = n
      · subst hcn
        show Buf.write _ ((h - 1) * w + c) _ ((h - 1) * w + c) = _
        rw [Buf.write_same]
        rw [average_top_fold_snd_frame w h c a b _ (fun s hs => by omega)]
        rw [average_top_fold_fst_frame w h c a b _ (fun s hs => by omega)]
      · show Buf.write _ ((h - 1) * w + n) _ ((h - 1) * w + c) = _
        rw [Buf.write_other _ _ _ _ (by omega)]
        exact ih (by omega)

theorem pair_ne {a b c d : ℕ} (h : ¬(a = c ∧ b = d)) : (a, b) ≠ (c, d) := by
  intro he
  rw [Prod.mk.injEq] at he
  exact h he

/-! Per-stage read and frame lemmas for the stitch loop body. -/

theorem stitch_cell_left_this (w h : ℕ) (g : TileGrid) (y x : ℕ) (hx : 0 < x) :
    stitch_cell_left w h g y x (y, x) =
      (average_left_loop w h (g (y, x)) (g (y, x - 1))).1 := by
  unfold stitch_cell_left
  rw [if_pos hx]
  rw [TileGrid.get_set_ne _ _ _ _ (pair_ne (by omega))]
  rw [TileGrid.get_set_same]

theorem stitch_cell_left_left (w h : ℕ) (g : TileGrid) (y x : ℕ) (hx : 0 < x) :
    stitch_cell_left w h g y x (y, x - 1) =
      (average_left_loop w h (g (y, x)) (g (y, x - 1))).2 := by
  unfold stitch_cell_left
  rw [if_pos hx]
  rw [TileGrid.get_set_same]

theorem stitch_cell_left_frame (w h : ℕ) (g : TileGrid) (y x : ℕ)
    (p : ℕ × ℕ) (h1 : p ≠ (y, x)) (h2 : p ≠ (y, x - 1)) :
    stitch_cell_left w h g y x p = g p := by
  unfold stitch_cell_left
  by_cases hx : 0 < x
  · rw [if_pos hx, TileGrid.get_set_ne _ _ _ _ h2, TileGrid.get_set_ne _ _ _ _ h1]
  · rw [if_neg hx]

theorem stitch_cell_left_id (w h : ℕ) (g : TileGrid) (y x : ℕ) (hx : x = 0) :
    stitch_cell_left w h g y x = g := by
  unfold stitch_cell_left
  rw [if_neg (by omega)]

theorem stitch_cell_top_this (w h : ℕ) (g : TileGrid) (y x : ℕ) (hy : 0 < y) :
    stitch_cell_top w h g y x (y, x) =
      (average_top_loop w h (g (y, x)) (g (y - 1, x))).1 := by
  unfold stitch_cell_top
  rw [if_pos hy]
  rw [TileGrid.get_set_ne _ _ _ _ (pair_ne (by omega))]
  rw [TileGrid.get_set_same]

theorem stitch_cell_top_top (w h : ℕ) (g : TileGrid) (y x : ℕ) (hy : 0 < y) :
    stitch_cell_top w h g y x (y - 1, x) =
      (average_top_loop w h (g (y, x)) (g (y - 1, x))).2 := by
  unfold stitch_cell_top
  rw [if_pos hy]
  rw [TileGrid.get_set_same]

theorem stitch_cell_top_frame (w h : ℕ) (g : TileGrid) (y x : ℕ)
    (p : ℕ × ℕ) (h1 : p ≠ (y, x)) (h2 : p ≠ (y - 1, x)) :
    stitch_cell_top w h g y x p = g p := by
  unfold stitch_cell_top
  by_cases hy : 0 < y
  · rw [if_pos hy, TileGrid.get_set_ne _ _ _ _ h2, TileGrid.get_set_ne _ _ _ _ h1]
  · rw [if_neg hy]

theorem stitch_cell_top_id (w h : ℕ) (g : TileGrid) (y x : ℕ) (hy : y = 0) :
    stitch_cell_top w h g y x = g := by
  unfold stitch_cell_top
  rw [if_neg (by omega)]

/-- In the corner stage (both neighbours present), the four written samples
— ours at 0, left at w-1, top-left at w*h-1, top at w*(h-1) — all receive
one common average; everything else is untouched. -/
theorem stitch_cell_corner_reads (w h : ℕ) (g : TileGrid) (y x : ℕ)
    (hx : 0 < x) (hy : 0 < y) :
    ∃ v : ℚ,
      stitch_cell_corner w h g y x (y, x) = (g (y, x)).write 0 v ∧
      stitch_cell_corner w h g y x (y, x - 1) = (g (y, x - 1)).write (w - 1) v ∧
      stitch_cell_corner w h g y x (y - 1, x - 1) =
        (g (y - 1, x - 1)).write (w * h - 1) v ∧
      stitch_cell_corner w h g y x (y - 1, x) =
        (g (y - 1, x)).write (w * (h - 1)) v := by
  unfold stitch_cell_corner
  rw [if_pos ⟨hx, hy⟩]
  refine ⟨(g (y, x - 1) (w - 1) + g (y - 1, x - 1) (w * h - 1) +
    g (y - 1, x) (w * (h - 1)) + g (y, x) 0) / 4, ?_, ?_, ?_, ?_⟩
  · rw [TileGrid.get_set_ne _ _ _ _ (pair_ne (by omega)),
      TileGrid.get_set_ne _ _ _ _ (pair_ne (by omega)),
      TileGrid.get_set_ne _ _ _ _ (pair_ne (by omega)),
      TileGrid.get_set_same]
    rfl
  · rw [TileGrid.get_set_ne _ _ _ _ (pair_ne (by omega)),
      TileGrid.get_set_ne _ _ _ _ (pair_ne (by omega)),
      TileGrid.get_set_same]
    rfl
  · rw [TileGrid.get_set_ne _ _ _ _ (pair_ne (by omega)),
      TileGrid.get_set_same]
    rfl
  · rw [TileGrid.get_set_same]
    rfl

theorem stitch_cell_corner_frame (w h : ℕ) (g : TileGrid) (y x : ℕ)
    (p : ℕ × ℕ) (h1 : p ≠ (y, x)) (h2 : p ≠ (y, x - 1))
    (h3 : p ≠ (y - 1, x - 1)) (h4 : p ≠ (y - 1, x)) :
    stitch_cell_corner w h g y x p = g p := by
  unfold stitch_cell_corner
  by_cases hc : 0 < x ∧ 0 < y
  · rw [if_pos hc, TileGrid.get_set_ne _ _ _ _ h4, TileGrid.get_set_ne _ _ _ _ h3,
      TileGrid.get_set_ne _ _ _ _ h2, TileGrid.get_set_ne _ _ _ _ h1]
  · rw [if_neg hc]

theorem stitch_cell_corner_id (w h : ℕ) (g : TileGrid) (y x : ℕ)
    (hc : ¬(0 < x ∧ 0 < y)) :
    stitch_cell_corner w h g y x = g := by
  unfold stitch_cell_corner
  rw [if_neg hc]

theorem average_top_loop_fst_frame (w h : ℕ) (a b : Buf) (i : ℕ)
    (hi : ∀ c < w, i ≠ c) : (average_top_loop w h a b).1 i = a i :=
  average_top_fold_fst_frame w h w a b i hi

theorem average_top_loop_snd_frame (w h : ℕ) (a b : Buf) (i : ℕ)
    (hi : ∀ c < w, i ≠ (h - 1) * w + c) : (average_top_loop w h a b).2 i = b i :=
  average_top_fold_snd_frame w h w a b i hi

theorem average_top_loop_fst_at (w h : ℕ) (a b : Buf) (c : ℕ) (hc : c < w) :
    (average_top_loop w h a b).1 c = (b ((h - 1) * w + c) + a c) / 2 :=
  average_top_fold_fst_at w h w a b c hc

theorem average_top_loop_snd_at (w h : ℕ) (a b : Buf) (c : ℕ) (hc : c < w) :
    (average_top_loop w h a b).2 ((h - 1) * w + c) =
      (b ((h - 1) * w + c) + a c) / 2 :=
  average_top_fold_snd_at w h w a b c hc

/-! Effect of one full stitch-cell body on the shared boundary samples and
frames for everything else.  Row r of a w-wide tile is flat indices
r*w .. r*w + (w-1). -/

/-- After cell (y, x) runs (x > 0), the vertical edge between (y, x-1) and
(y, x) agrees at every row: the left-stitch sets every row's pair to one
average, the top-stitch only disturbs our row-0 end, and the corner average
rewrites that end of the pair to one common value. -/
theorem stitch_cell_V_settled (w h : ℕ) (hw : 2 ≤ w) (hh : 1 ≤ h)
    (g : TileGrid) (y x : ℕ) (hx : 0 < x) :
    ∀ r < h, stitch_cell w h g y x (y, x - 1) (r * w + (w - 1)) =
      stitch_cell w h g y x (y, x) (r * w) := by
  intro r hr
  unfold stitch_cell
  have hpair : stitch_cell_left w h g y x (y, x - 1) (r * w + (w - 1)) =
      stitch_cell_left w h g y x (y, x) (r * w) := by
    rw [stitch_cell_left_left _ _ _ _ _ hx, stitch_cell_left_this _ _ _ _ _ hx]
    rw [average_left_loop_snd_at _ _ (by omega) _ _ _ hr,
      average_left_loop_fst_at _ _ (by omega) _ _ _ hr]
  by_cases hy : 0 < y
  · have hT1 : stitch_cell_top w h (stitch_cell_left w h g y x) y x (y, x - 1) =
        stitch_cell_left w h g y x (y, x - 1) :=
      stitch_cell_top_frame _ _ _ _ _ _ (pair_ne (by omega)) (pair_ne (by omega))
    by_cases hr0 : r = 0
    · subst hr0
      obtain ⟨v, hv1, hv2, hv3, hv4⟩ := stitch_cell_corner_reads w h _ y x hx hy
      rw [hv2, hv1]
      rw [show (0 * w + (w - 1) : ℕ) = w - 1 by omega]
      rw [show (0 * w : ℕ) = 0 by omega]
      rw [Buf.write_same, Buf.write_same]
    · have hrw : w ≤ r * w := Nat.le_mul_of_pos_left w (by omega)
      obtain ⟨v, hv1, hv2, hv3, hv4⟩ := stitch_cell_corner_reads w h _ y x hx hy
      rw [hv2, hv1]
      rw [Buf.write_other _ _ _ _ (show r * w + (w - 1) ≠ w - 1 by omega)]
      rw [Buf.write_other _ _ _ _ (show r * w ≠ 0 by omega)]
      rw [hT1]
      rw [stitch_cell_top_this _ _ _ _ _ hy]
      rw [average_top_loop_fst_frame _ _ _ _ _ (fun c hc => by omega)]
      exact hpair
  · rw [stitch_cell_top_id _ _ _ _ _ (by omega),
      stitch_cell_corner_id _ _ _ _ _ (fun hcc => hy hcc.2)]
    exact hpair

/-- After cell (y, x) runs (y > 0), the horizontal edge between (y-1, x) and
(y, x) agrees at every column. -/
theorem stitch_cell_H_settled (w h : ℕ) (hw : 1 ≤ w) (hh : 2 ≤ h)
    (g : TileGrid) (y x : ℕ) (hy : 0 < y) :
    ∀ c < w, stitch_cell w h g y x (y - 1, x) ((h - 1) * w + c) =
      stitch_cell w h g y x (y, x) c := by
  intro c hc
  unfold stitch_cell
  have hpair : stitch_cell_top w h (stitch_cell_left w h g y x) y x
      (y - 1, x) ((h - 1) * w + c) =
      stitch_cell_top w h (stitch_cell_left w h g y x) y x (y, x) c := by
    rw [stitch_cell_top_top _ _ _ _ _ hy, stitch_cell_top_this _ _ _ _ _ hy]
    rw [average_top_loop_snd_at _ _ _ _ _ hc, average_top_loop_fst_at _ _ _ _ _ hc]
  by_cases hx : 0 < x
  · obtain ⟨v, hv1, hv2, hv3, hv4⟩ := stitch_cell_corner_reads w h _ y x hx hy
    by_cases hc0 : c = 0
    · subst hc0
      rw [hv4, hv1]
      rw [show ((h - 1) * w + 0 : ℕ) = w * (h - 1) from by
        rw [Nat.add_zero, Nat.mul_comm]]
      rw [Buf.write_same, Buf.write_same]
    · rw [hv4, hv1]
      rw [Buf.write_other _ _ _ _ (show (h - 1) * w + c ≠ w * (h - 1) from by
        rw [Nat.mul_comm w (h - 1)]
        omega)]
      rw [Buf.write_other _ _ _ _ (show c ≠ 0 from hc0)]
      exact hpair
  · rw [stitch_cell_corner_id _ _ _ _ _ (fun hcc => hx hcc.1)]
    exact hpair

/-- After cell (y, x) runs (x > 0, y > 0), the corner average leaves the
bottom-right sample of (y-1, x-1) equal to the bottom-left sample of
(y-1, x): re-fixes the vertical edge of the row above at its bottom row. -/
theorem stitch_cell_corner_topleft_top (w h : ℕ) (g : TileGrid) (y x : ℕ)
    (hx : 0 < x) (hy : 0 < y) :
    stitch_cell w h g y x (y - 1, x - 1) (w * h - 1) =
      stitch_cell w h g y x (y - 1, x) (w * (h - 1)) := by
  unfold stitch_cell
  obtain ⟨v, hv1, hv2, hv3, hv4⟩ := stitch_cell_corner_reads w h _ y x hx hy
  rw [hv3, hv4, Buf.write_same, Buf.write_same]

/-- After cell (y, x) runs (x > 0, y > 0), the corner average leaves the
bottom-right sample of (y-1, x-1) equal to the top-right sample of
(y, x-1): re-fixes the horizontal edge of the column to the left at its
last column. -/
theorem stitch_cell_corner_topleft_left (w h : ℕ) (g : TileGrid) (y x : ℕ)
    (hx : 0 < x) (hy : 0 < y) :
    stitch_cell w h g y x (y - 1, x - 1) (w * h - 1) =
      stitch_cell w h g y x (y, x - 1) (w - 1) := by
  unfold stitch_cell
  obtain ⟨v, hv1, hv2, hv3, hv4⟩ := stitch_cell_corner_reads w h _ y x hx hy
  rw [hv3, hv2, Buf.write_same, Buf.write_same]

/-- Cell (y, x) leaves every tile other than (y, x), (y, x-1), (y-1, x),
(y-1, x-1) untouched. -/
theorem stitch_cell_frame_other (w h : ℕ) (g : TileGrid) (y x : ℕ)
    (p : ℕ × ℕ) (h1 : p ≠ (y, x)) (h2 : p ≠ (y, x - 1))
    (h3 : p ≠ (y - 1, x)) (h4 : p ≠ (y - 1, x - 1)) :
    stitch_cell w h g y x p = g p := by
  unfold stitch_cell
  rw [stitch_cell_corner_frame _ _ _ _ _ _ h1 h2 h4 h3]
  rw [stitch_cell_top_frame _ _ _ _ _ _ h1 h3]
  rw [stitch_cell_left_frame _ _ _ _ _ _ h1 h2]

/-- Cell (y, x) touches its own tile only in column 0 and row 0. -/
theorem stitch_cell_frame_this (w h : ℕ) (hw : 1 ≤ w) (g : TileGrid)
    (y x : ℕ) (i : ℕ) (hrow : ∀ r < h, i ≠ r * w) (hcol : ∀ c < w, i ≠ c) :
    stitch_cell w h g y x (y, x) i = g (y, x) i := by
  unfold stitch_cell
  have hL : stitch_cell_left w h g y x (y, x) i = g (y, x) i := by
    by_cases hx : 0 < x
    · rw [stitch_cell_left_this _ _ _ _ _ hx]
      exact average_left_loop_fst_frame _ _ _ _ _ hrow
    · rw [stitch_cell_left_id w h g y x (by omega)]
  have hT : stitch_cell_top w h (stitch_cell_left w h g y x) y x (y, x) i =
      g (y, x) i := by
    by_cases hy : 0 < y
    · rw [stitch_cell_top_this _ _ _ _ _ hy]
      rw [average_top_loop_fst_frame _ _ _ _ _ hcol]
      exact hL
    · rw [stitch_cell_top_id w h (stitch_cell_left w h g y x) y x (by omega)]
      exact hL
  by_cases hc : 0 < x ∧ 0 < y
  · obtain ⟨v, hv1, hv2, hv3, hv4⟩ := stitch_cell_corner_reads w h _ y x hc.1 hc.2
    rw [hv1, Buf.write_other _ _ _ _ (hcol 0 (by omega))]
    exact hT
  · rw [stitch_cell_corner_id _ _ _ _ _ hc]
    exact hT

/-- Cell (y, x) touches the tile to its left only in column w-1. -/
theorem stitch_cell_frame_left (w h : ℕ) (hh : 1 ≤ h) (g : TileGrid)
    (y x : ℕ) (hx : 0 < x) (i : ℕ) (hfr : ∀ r < h, i ≠ r * w + (w - 1)) :
    stitch_cell w h g y x (y, x - 1) i = g (y, x - 1) i := by
  unfold stitch_cell
  have hL : stitch_cell_left w h g y x (y, x - 1) i = g (y, x - 1) i := by
    rw [stitch_cell_left_left _ _ _ _ _ hx]
    exact average_left_loop_snd_frame _ _ _ _ _ hfr
  have hT : stitch_cell_top w h (stitch_cell_left w h g y x) y x (y, x - 1) =
      stitch_cell_left w h g y x (y, x - 1) :=
    stitch_cell_top_frame _ _ _ _ _ _ (pair_ne (by omega)) (pair_ne (by omega))
  by_cases hy : 0 < y
  · obtain ⟨v, hv1, hv2, hv3, hv4⟩ := stitch_cell_corner_reads w h _ y x hx hy
    rw [hv2]
    rw [Buf.write_other _ _ _ _ (show i ≠ w - 1 from by
      have h0 := hfr 0 (by omega)
      omega)]
    rw [hT]
    exact hL
  · rw [stitch_cell_corner_id _ _ _ _ _ (fun hcc => hy hcc.2)]
    rw [hT]
    exact hL

/-- Cell (y, x) touches the tile above only in row h-1. -/
theorem stitch_cell_frame_top (w h : ℕ) (hw : 1 ≤ w) (g : TileGrid)
    (y x : ℕ) (hy : 0 < y) (i : ℕ) (hfr : ∀ c < w, i ≠ (h - 1) * w + c) :
    stitch_cell w h g y x (y - 1, x) i = g (y - 1, x) i := by
  unfold stitch_cell
  have hL : stitch_cell_left w h g y x (y - 1, x) = g (y - 1, x) :=
    stitch_cell_left_frame _ _ _ _ _ _ (pair_ne (by omega)) (pair_ne (by omega))
  have hT : stitch_cell_top w h (stitch_cell_left w h g y x) y x (y - 1, x) i =
      g (y - 1, x) i := by
    rw [stitch_cell_top_top _ _ _ _ _ hy]
    rw [average_top_loop_snd_frame _ _ _ _ _ hfr]
    rw [hL]
  by_cases hx : 0 < x
  · obtain ⟨v, hv1, hv2, hv3, hv4⟩ := stitch_cell_corner_reads w h _ y x hx hy
    rw [hv4]
    rw [Buf.write_other _ _ _ _ (show i ≠ w * (h - 1) from by
      have h0 := hfr 0 (by omega)
      rw [Nat.mul_comm]
      omega)]
    exact hT
  · rw [stitch_cell_corner_id _ _ _ _ _ (fun hcc => hx hcc.1)]
    exact hT

/-- Cell (y, x) touches the tile diagonally above-left only at its last
sample w*h-1. -/
theorem stitch_cell_frame_topleft (w h : ℕ) (g : TileGrid) (y x : ℕ)
    (hx : 0 < x) (hy : 0 < y) (i : ℕ) (hne : i ≠ w * h - 1) :
    stitch_cell w h g y x (y - 1, x - 1) i = g (y - 1, x - 1) i := by
  unfold stitch_cell
  have hL : stitch_cell_left w h g y x (y - 1, x - 1) = g (y - 1, x - 1) :=
    stitch_cell_left_frame _ _ _ _ _ _ (pair_ne (by omega)) (pair_ne (by omega))
  have hT : stitch_cell_top w h (stitch_cell_left w h g y x) y x (y - 1, x - 1) =
      stitch_cell_left w h g y x (y - 1, x - 1) :=
    stitch_cell_top_frame _ _ _ _ _ _ (pair_ne (by omega)) (pair_ne (by omega))
  obtain ⟨v, hv1, hv2, hv3, hv4⟩ := stitch_cell_corner_reads w h _ y x hx hy
  rw [hv3, Buf.write_other _ _ _ _ hne, hT, hL]

theorem col0_ne_colw1 {w : ℕ} (hw : 2 ≤ w) (r s : ℕ) :
    r * w ≠ s * w + (w - 1) := by
  intro he
  have h1 : (r * w) % w = 0 := Nat.mul_mod_left r w
  have h2 : (s * w + (w - 1)) % w = w - 1 := by
    rw [Nat.add_comm, Nat.add_mul_mod_self_right]
    exact Nat.mod_eq_of_lt (by omega)
  rw [he, h2] at h1
  omega

theorem pred_mul_add_lt {w h r : ℕ} (hw : 1 ≤ w) (hr : r < h - 1) :
    r * w + (w - 1) < (h - 1) * w := by
  have h1 : (r + 1) * w ≤ (h - 1) * w := Nat.mul_le_mul_right _ (by omega)
  have h2 : (r + 1) * w = r * w + w := by ring
  omega

theorem pred_index_eq {w h : ℕ} (hw : 1 ≤ w) (hh : 1 ≤ h) :
    (h - 1) * w + (w - 1) = w * h - 1 := by
  have h2 : w * h = (h - 1) * w + w := by
    rw [Nat.mul_comm]
    conv_lhs => rw [show h = (h - 1) + 1 from by omega]
    rw [Nat.add_mul, Nat.one_mul]
  omega

theorem pred_index_comm (w h : ℕ) : (h - 1) * w = w * (h - 1) :=
  Nat.mul_comm _ _

theorem row0_lt_predrow {w h c : ℕ} (hc : c < w) (hh : 2 ≤ h) :
    c < (h - 1) * w := by
  have h1 : 1 * w ≤ (h - 1) * w := Nat.mul_le_mul_right _ (by omega)
  omega

/-- The inner induction for the C1 stitching proof: the state of one
lod level's tile grid after the first n cells of row y have run, starting
from g0.  Gives frames (tiles outside rows y-1 and y untouched; row y-1
tiles touched only in their last row; cells at or beyond column n untouched),
the vertical and horizontal edges of row y settled up to column n, and the
bottom row of the vertical edges of row y-1 settled everywhere except at the
one pending column n (re-fixed by the corner average of the next cell). -/
theorem stitch_row_invariant (w h : ℕ) (hw : 2 ≤ w) (hh : 2 ≤ h) (gx : ℕ)
    (y : ℕ) (g0 : TileGrid)
    (hpre : 0 < y → ∀ x, 0 < x → x < gx →
      g0 (y - 1, x - 1) ((h - 1) * w + (w - 1)) = g0 (y - 1, x) ((h - 1) * w))
    (n : ℕ) :
    (∀ p : ℕ × ℕ, p.1 ≠ y → p.1 + 1 ≠ y →
      (List.range n).foldl (fun g x => stitch_cell w h g y x) g0 p = g0 p) ∧
    (0 < y → ∀ px i, i < (h - 1) * w →
      (List.range n).foldl (fun g x => stitch_cell w h g y x) g0 (y - 1, px) i =
        g0 (y - 1, px) i) ∧
    (∀ px, n ≤ px →
      (List.range n).foldl (fun g x => stitch_cell w h g y x) g0 (y, px) =
        g0 (y, px)) ∧
    (0 < y → ∀ px, n ≤ px →
      (List.range n).foldl (fun g x => stitch_cell w h g y x) g0 (y - 1, px) =
        g0 (y - 1, px)) ∧
    (∀ x, 0 < x → x < n → ∀ r < h,
      (List.range n).foldl (fun g x => stitch_cell w h g y x) g0 (y, x - 1)
          (r * w + (w - 1)) =
        (List.range n).foldl (fun g x => stitch_cell w h g y x) g0 (y, x)
          (r * w)) ∧
    (0 < y → ∀ x < n, ∀ c < w,
      (List.range n).foldl (fun g x => stitch_cell w h g y x) g0 (y - 1, x)
          ((h - 1) * w + c) =
        (List.range n).foldl (fun g x => stitch_cell w h g y x) g0 (y, x) c) ∧
    (0 < y → ∀ x, 0 < x → x < gx → x ≠ n →
      (List.range n).foldl (fun g x => stitch_cell w h g y x) g0 (y - 1, x - 1)
          ((h - 1) * w + (w - 1)) =
        (List.range n).foldl (fun g x => stitch_cell w h g y x) g0 (y - 1, x)
          ((h - 1) * w)) := by
  induction n with
  | zero =>
      refine ⟨fun p _ _ => rfl, fun _ px i _ => rfl, fun px _ => rfl,
        fun _ px _ => rfl, fun x hx hxn => by omega, fun hy x hxn => by omega,
        fun hy x hx hxgx _ => hpre hy x hx hxgx⟩
  | succ n ih =>
      obtain ⟨ihA, ihB, ihC, ihD, ihS1, ihS2, ihS3⟩ := ih
      have hstep : (List.range (n + 1)).foldl
          (fun g x => stitch_cell w h g y x) g0 =
          stitch_cell w h
            ((List.range n).foldl (fun g x => stitch_cell w h g y x) g0) y n := by
        rw [List.range_succ, List.foldl_append]
        rfl
      rw [hstep]
      set R := (List.range n).foldl (fun g x => stitch_cell w h g y x) g0 with hR
      refine ⟨?_, ?_, ?_, ?_, ?_, ?_, ?_⟩
      · -- (A) rows outside y-1, y untouched
        intro p hp1 hp2
        rw [stitch_cell_frame_other w h R y n p (pair_ne (by omega))
          (pair_ne (by omega)) (pair_ne (by omega)) (pair_ne (by omega))]
        exact ihA p hp1 hp2
      · -- (B) row y-1 tiles untouched below their last row
        intro hy px i hi
        by_cases hpn : px = n
        · rw [hpn]
          rw [stitch_cell_frame_top w h (by omega) R y n hy i
            (fun c hc => by omega)]
          exact ihB hy n i hi
        · by_cases hpn1 : px + 1 = n
          · have hn0 : 0 < n := by omega
            have hpx : px = n - 1 := by omega
            rw [hpx]
            rw [stitch_cell_frame_topleft w h R y n hn0 hy i
              (by
                have := @pred_index_eq w h (by omega) (by omega)
                omega)]
            exact ihB hy (n - 1) i hi
          · rw [stitch_cell_frame_other w h R y n (y - 1, px)
              (pair_ne (by omega)) (pair_ne (by omega)) (pair_ne (by omega))
              (pair_ne (by omega))]
            exact ihB hy px i hi
      · -- (C) row y tiles at or beyond column n+1 untouched
        intro px hpx
        rw [stitch_cell_frame_other w h R y n (y, px) (pair_ne (by omega))
          (pair_ne (by omega)) (pair_ne (by omega)) (pair_ne (by omega))]
        exact ihC px (by omega)
      · -- (D) row y-1 tiles at or beyond column n+1 untouched
        intro hy px hpx
        rw [stitch_cell_frame_other w h R y n (y - 1, px) (pair_ne (by omega))
          (pair_ne (by omega)) (pair_ne (by omega)) (pair_ne (by omega))]
        exact ihD hy px (by omega)
      · -- (S1) vertical edges of row y settled up to column n
        intro x hx hxn r hr
        by_cases hxeq : x = n
        · subst hxeq
          exact stitch_cell_V_settled w h hw (by omega) R y x hx r hr
        · have hxlt : x < n := by omega
          have hcopy2 : stitch_cell w h R y n (y, x) (r * w) =
              R (y, x) (r * w) := by
            by_cases hx1 : x = n - 1
            · have hn0 : 0 < n := by omega
              subst hx1
              rw [show ((y : ℕ), n - 1) = (y, n - 1) from rfl]
              rw [stitch_cell_frame_left w h (by omega) R y n hn0 (r * w)
                (fun s hs => col0_ne_colw1 hw r s)]
            · rw [stitch_cell_frame_other w h R y n (y, x) (pair_ne (by omega))
                (pair_ne (by omega)) (pair_ne (by omega)) (pair_ne (by omega))]
          have hcopy1 : stitch_cell w h R y n (y, x - 1) (r * w + (w - 1)) =
              R (y, x - 1) (r * w + (w - 1)) := by
            rw [stitch_cell_frame_other w h R y n (y, x - 1) (pair_ne (by omega))
              (pair_ne (by omega)) (pair_ne (by omega)) (pair_ne (by omega))]
          rw [hcopy1, hcopy2]
          exact ihS1 x hx hxlt r hr
      · -- (S2) horizontal edges of row y settled up to column n
        intro hy x hxn c hc
        by_cases hxeq : x = n
        · subst hxeq
          exact stitch_cell_H_settled w h (by omega) hh R y x hy c hc
        · have hxlt : x < n := by omega
          by_cases hx1 : x = n - 1 ∧ 0 < n
          · obtain ⟨hx1, hn0⟩ := hx1
            by_cases hcw : c = w - 1
            · subst hx1
              subst hcw
              have he4 := stitch_cell_corner_topleft_left w h R y n hn0 hy
              rw [show (w * h - 1 : ℕ) = (h - 1) * w + (w - 1) from
                (pred_index_eq (by omega) (by omega)).symm] at he4
              exact he4
            · subst hx1
              have hcopy2 : stitch_cell w h R y n (y, n - 1) c =
                  R (y, n - 1) c := by
                rw [stitch_cell_frame_left w h (by omega) R y n hn0 c
                  (fun s hs => by
                    by_cases hs0 : s = 0
                    · subst hs0
                      omega
                    · have hsw : w ≤ s * w := Nat.le_mul_of_pos_left w (by omega)
                      omega)]
              have hcopy1 : stitch_cell w h R y n (y - 1, n - 1)
                  ((h - 1) * w + c) = R (y - 1, n - 1) ((h - 1) * w + c) := by
                rw [stitch_cell_frame_topleft w h R y n hn0 hy _
                  (by
                    have := @pred_index_eq w h (by omega) (by omega)
                    omega)]
              rw [hcopy1, hcopy2]
              exact ihS2 hy (n - 1) hxlt c hc
          · have hcopy2 : stitch_cell w h R y n (y, x) c = R (y, x) c := by
              rw [stitch_cell_frame_other w h R y n (y, x) (pair_ne (by omega))
                (pair_ne (by omega)) (pair_ne (by omega)) (pair_ne (by omega))]
            have hcopy1 : stitch_cell w h R y n (y - 1, x) ((h - 1) * w + c) =
                R (y - 1, x) ((h - 1) * w + c) := by
              rw [stitch_cell_frame_other w h R y n (y - 1, x)
                (pair_ne (by omega)) (pair_ne (by omega)) (pair_ne (by omega))
                (pair_ne (by omega))]
            rw [hcopy1, hcopy2]
            exact ihS2 hy x hxlt c hc
      · -- (S3) bottom row of the vertical edges of row y-1: settled except at
        -- the pending column n+1
        intro hy x hx hxgx hxne
        by_cases hxeq : x = n
        · subst hxeq
          have he3 := stitch_cell_corner_topleft_top w h R y x hx hy
          rw [show (w * h - 1 : ℕ) = (h - 1) * w + (w - 1) from
            (pred_index_eq (by omega) (by omega)).symm] at he3
          rw [show (w * (h - 1) : ℕ) = (h - 1) * w from
            (pred_index_comm w h).symm] at he3
          exact he3
        · have hcopy1 : stitch_cell w h R y n (y - 1, x - 1)
              ((h - 1) * w + (w - 1)) = R (y - 1, x - 1) ((h - 1) * w + (w - 1)) := by
            rw [stitch_cell_frame_other w h R y n (y - 1, x - 1)
              (pair_ne (by omega)) (pair_ne (by omega)) (pair_ne (by omega))
              (pair_ne (by omega))]
          have hcopy2 : stitch_cell w h R y n (y - 1, x) ((h - 1) * w) =
              R (y - 1, x) ((h - 1) * w) := by
            by_cases hx1 : x = n - 1 ∧ 0 < n
            · obtain ⟨hx1, hn0⟩ := hx1
              subst hx1
              rw [stitch_cell_frame_topleft w h R y n hn0 hy _
                (by
                  have := @pred_index_eq w h (by omega) (by omega)
                  omega)]
            · rw [stitch_cell_frame_other w h R y n (y - 1, x)
                (pair_ne (by omega)) (pair_ne (by omega)) (pair_ne (by omega))
                (pair_ne (by omega))]
          rw [hcopy1, hcopy2]
          exact ihS3 hy x hx hxgx hxeq

/-- The outer induction for the C1 stitching proof: after the rows y < Y of
the stitching pass have run, every vertical edge of a row y < Y and every
horizontal edge between rows y-1 and y with y < Y is settled (both copies
agree). -/
theorem stitch_pass_invariant (w h : ℕ) (hw : 2 ≤ w) (hh : 2 ≤ h)
    (gx : ℕ) (g0 : TileGrid) (Y : ℕ) :
    (∀ y x r, 0 < x → x < gx → y < Y → r < h →
      (List.range Y).foldl (fun g y => stitch_row gx w h y g) g0 (y, x - 1)
          (r * w + (w - 1)) =
        (List.range Y).foldl (fun g y => stitch_row gx w h y g) g0 (y, x)
          (r * w)) ∧
    (∀ y x c, 0 < y → y < Y → x < gx → c < w →
      (List.range Y).foldl (fun g y => stitch_row gx w h y g) g0 (y - 1, x)
          ((h - 1) * w + c) =
        (List.range Y).foldl (fun g y => stitch_row gx w h y g) g0 (y, x) c) := by
  induction Y with
  | zero =>
      exact ⟨fun y x r _ _ hy _ => absurd hy (Nat.not_lt_zero y),
        fun y x c _ hy _ _ => absurd hy (Nat.not_lt_zero y)⟩
  | succ Y ih =>
      obtain ⟨ihV, ihH⟩ := ih
      have hstep : (List.range (Y + 1)).foldl
          (fun g y => stitch_row gx w h y g) g0 =
          stitch_row gx w h Y
            ((List.range Y).foldl (fun g y => stitch_row gx w h y g) g0) := by
        rw [List.range_succ, List.foldl_append]
        rfl
      rw [hstep]
      set G := (List.range Y).foldl (fun g y => stitch_row gx w h y g) g0
        with hG
      have hpre : 0 < Y → ∀ x, 0 < x → x < gx →
          G (Y - 1, x - 1) ((h - 1) * w + (w - 1)) =
            G (Y - 1, x) ((h - 1) * w) := by
        intro hY x hx hxgx
        exact ihV (Y - 1) x (h - 1) hx hxgx (by omega) (by omega)
      obtain ⟨RA, RB, RC, RD, RS1, RS2, RS3⟩ :=
        stitch_row_invariant w h hw hh gx Y G hpre gx
      simp only [stitch_row]
      constructor
      · intro y x r hx hxgx hy hr
        by_cases hyY : y = Y
        · rw [hyY]
          exact RS1 x hx hxgx r hr
        · have hylt : y < Y := by omega
          by_cases hy1 : y + 1 = Y
          · have hY0 : 0 < Y := by omega
            by_cases hrh : r = h - 1
            · rw [hrh, show y = Y - 1 from by omega]
              exact RS3 hY0 x hx hxgx (by omega)
            · have hi1 : r * w + (w - 1) < (h - 1) * w :=
                pred_mul_add_lt (by omega) (by omega)
              rw [show y = Y - 1 from by omega]
              rw [RB hY0 (x - 1) _ hi1, RB hY0 x _ (by omega)]
              exact ihV (Y - 1) x r hx hxgx (by omega) hr
          · rw [RA (y, x - 1) (by omega) (by omega), RA (y, x) (by omega)
              (by omega)]
            exact ihV y x r hx hxgx hylt hr
      · intro y x c hy0 hy hxgx hc
        by_cases hyY : y = Y
        · rw [hyY]
          exact RS2 (by omega) x hxgx c hc
        · have hylt : y < Y := by omega
          by_cases hy1 : y + 1 = Y
          · have hY0 : 0 < Y := by omega
            have hcopy2 : (List.range gx).foldl
                (fun g x => stitch_cell w h g Y x) G (y, x) c = G (y, x) c := by
              rw [show y = Y - 1 from by omega]
              exact RB hY0 x c (row0_lt_predrow hc hh)
            have hcopy1 : (List.range gx).foldl
                (fun g x => stitch_cell w h g Y x) G (y - 1, x) =
                G (y - 1, x) := RA _ (by omega) (by omega)
            rw [hcopy1, hcopy2]
            exact ihH y x c hy0 hylt hxgx hc
          · rw [RA (y - 1, x) (by omega) (by omega), RA (y, x) (by omega)
              (by omega)]
            exact ihH y x c hy0 hylt hxgx hc

/-- C1 (amended): after the stitching pass over a gy by gx grid of tiles of
width w >= 2 and height h >= 2, every boundary sample shared by two
horizontally adjacent tiles (column w-1 of (y, x-1) against column 0 of
(y, x), every row r) and by two vertically adjacent tiles (row h-1 of
(y-1, x) against row 0 of (y, x), every column c) holds one identical value
in both tiles' buffers; the four-tile corner samples are the r = 0 / c = 0 /
c = w-1 instances.  The claim's unqualified form (any tile dimensions) is
refuted separately for width-1 tiles. -/
theorem stitch_pass_boundary_agreement (w h gy gx : ℕ) (hw : 2 ≤ w)
    (hh : 2 ≤ h) (g0 : TileGrid) :
    (∀ y x r, y < gy → 0 < x → x < gx → r < h →
      stitch_pass gy gx w h g0 (y, x - 1) (r * w + (w - 1)) =
        stitch_pass gy gx w h g0 (y, x) (r * w)) ∧
    (∀ y x c, 0 < y → y < gy → x < gx → c < w →
      stitch_pass gy gx w h g0 (y - 1, x) ((h - 1) * w + c) =
        stitch_pass gy gx w h g0 (y, x) c) := by
  obtain ⟨hV, hH⟩ := stitch_pass_invariant w h hw hh gx g0 gy
  simp only [stitch_pass]
  exact ⟨fun y x r hy hx hxgx hr => hV y x r hx hxgx hy hr,
    fun y x c hy0 hy hxgx hc => hH y x c hy0 hy hxgx hc⟩

def terrain8 : PerlinTerrain := ⟨8, 8, fun i => if i = 0 then 8 else 0⟩

/-- Reading one tile's buffer out of construct_lod_grid when the downsampled
build of its child region succeeds. -/
theorem construct_lod_grid_at (terrain : PerlinTerrain) (xs ys : ℕ)
    (lod : ℤ) (p : ℕ × ℕ) (t : Tile)
    (ht : Tile.sample_region_from_perlin
      ((((terrain.get_region).subdivide_region xs ys).getD p.1 []).getD p.2
        ⟨0, 0, 0, 0⟩) terrain lod = .ok t) :
    construct_lod_grid terrain xs ys lod p = t.our_data := by
  show (match Tile.sample_region_from_perlin
      ((((terrain.get_region).subdivide_region xs ys).getD p.1 []).getD p.2
        ⟨0, 0, 0, 0⟩) terrain lod with
    | .ok t => t.our_data
    | .error _ => fun _ => 0) = t.our_data
  rw [ht]

/-- Counterexample to the unqualified C1 claim: an 8 by 8 field whose only
nonzero sample (value 8) sits at index 0, split into 4 columns by 1 row, at
lod 1, yields four tiles of width 1 and height 4.  Each stitch averages a
tile's whole single column with its left neighbour's, so cell (0, 2)
overwrites the boundary column that cell (0, 1) had just settled: after the
full pass tile (0, 0)'s sample 0 holds 1 while its right neighbour
(0, 1)'s sample 0 holds 1/2 — the shared boundary sample differs between
the two adjacent tiles. -/
theorem stitch_boundary_counterexample :
    stitch_pass 1 4 1 4 (construct_lod_grid terrain8 4 1 1) (0, 0) 0 ≠
      stitch_pass 1 4 1 4 (construct_lod_grid terrain8 4 1 1) (0, 1) 0 := by
  intro hcontra
  have hreg : (terrain8.get_region).subdivide_region 4 1 =
      [[⟨0, 0, 2, 8⟩, ⟨2, 0, 2, 8⟩, ⟨4, 0, 2, 8⟩, ⟨6, 0, 2, 8⟩]] := by
    show Region.subdivide_region ⟨0, 0, 8, 8⟩ 4 1 = _
    unfold Region.subdivide_region
    simp only [List.range_succ, List.range_zero, List.nil_append,
      List.map_append, List.map_cons, List.map_nil, List.cons_append,
      List.singleton_append]
    norm_num [Region.make, Region.mk.injEq]
  have htile : ∀ rx : ℤ, rx = 0 ∨ rx = 2 ∨ rx = 4 →
      ∃ t, Tile.sample_region_from_perlin ⟨rx, 0, 2, 8⟩ terrain8 1 = .ok t ∧
        t.our_data 0 = (if rx = 0 then 2 else 0) := by
    intro rx hrx
    obtain ⟨t, ht, ⟨hwz, hhz⟩, hdata⟩ :=
      downsample_eval ⟨terrain8, ⟨rx, 0, 2, 8⟩, 0, 0, fun _ => 0, 0⟩ 1
        (by norm_num) (by norm_num)
        (by rcases hrx with h | h | h <;> norm_num [h])
        (by norm_num) (by norm_num) (by norm_num)
        (by rcases hrx with h | h | h <;> norm_num [h, terrain8])
        (by norm_num [terrain8])
    have hw1 : t.width = 1 := by
      have h1 : (t.width : ℤ) = 1 := by
        rw [hwz]
        show Int.fdiv 2 ((2 ^ (1 : ℤ).toNat : ℕ) : ℤ) = 1
        decide
      omega
    have hh4 : t.height = 4 := by
      have h1 : (t.height : ℤ) = 4 := by
        rw [hhz]
        show Int.fdiv 8 ((2 ^ (1 : ℤ).toNat : ℕ) : ℤ) = 4
        decide
      omega
    have hd := hdata 0 (by omega) 0 (by omega)
    rw [show (0 * t.width + 0 : ℕ) = 0 from by omega] at hd
    refine ⟨t, ht, ?_⟩
    rw [hd]
    rcases hrx with h | h | h <;>
      (rw [h]
       norm_num [terrain8, Finset.sum_range_succ, Int.toNat_one])
  obtain ⟨t0, ht0, hv0⟩ := htile 0 (Or.inl rfl)
  obtain ⟨t1, ht1, hv1⟩ := htile 2 (Or.inr (Or.inl rfl))
  obtain ⟨t2, ht2, hv2⟩ := htile 4 (Or.inr (Or.inr rfl))
  rw [if_pos rfl] at hv0
  rw [if_neg (by norm_num)] at hv1
  rw [if_neg (by norm_num)] at hv2
  have h00 : construct_lod_grid terrain8 4 1 1 (0, 0) 0 = 2 := by
    rw [construct_lod_grid_at terrain8 4 1 1 (0, 0) t0 (by rw [hreg]; exact ht0)]
    exact hv0
  have h01 : construct_lod_grid terrain8 4 1 1 (0, 1) 0 = 0 := by
    rw [construct_lod_grid_at terrain8 4 1 1 (0, 1) t1 (by rw [hreg]; exact ht1)]
    exact hv1
  have h02 : construct_lod_grid terrain8 4 1 1 (0, 2) 0 = 0 := by
    rw [construct_lod_grid_at terrain8 4 1 1 (0, 2) t2 (by rw [hreg]; exact ht2)]
    exact hv2
  have hf0 : stitch_pass 1 4 1 4 (construct_lod_grid terrain8 4 1 1) (0, 0) 0 =
      (construct_lod_grid terrain8 4 1 1 (0, 0) 0 +
        construct_lod_grid terrain8 4 1 1 (0, 1) 0) / 2 := rfl
  have hf1 : stitch_pass 1 4 1 4 (construct_lod_grid terrain8 4 1 1) (0, 1) 0 =
      ((construct_lod_grid terrain8 4 1 1 (0, 0) 0 +
        construct_lod_grid terrain8 4 1 1 (0, 1) 0) / 2 +
        construct_lod_grid terrain8 4 1 1 (0, 2) 0) / 2 := rfl
  rw [hf0, hf1, h00, h01, h02] at hcontra
  norm_num at hcontra

theorem stitch_pass_boundary_agreement_witness :
    stitch_pass 2 2 2 2 (fun p i => ((p.1 * 10 + i : ℕ) : ℚ)) (0, 0)
        (0 * 2 + (2 - 1)) =
      stitch_pass 2 2 2 2 (fun p i => ((p.1 * 10 + i : ℕ) : ℚ)) (0, 1)
        (0 * 2) :=
  (stitch_pass_boundary_agreement 2 2 2 2 (by norm_num) (by norm_num)
      (fun p i => ((p.1 * 10 + i : ℕ) : ℚ))).1
    0 1 0 (by norm_num) (by norm_num) (by norm_num) (by norm_num)

end WebGLDemo
